import Mathlib

/-!
# Verification of the skip-chain search core (`src/index.ts`)

Shallow embedding of the archive block-chain search layer: an ordered
secondary-index lookup over an append-only multi-level linked block chain,
built atop an external block store and tip-pointer store.

Modelling conventions:
* The external stores (`ArchiveBlockDatabase.getBlock`, `ArchiveTipDatabase.getTip`)
  are modelled as association lists held inside `ArchiveIndex`; every store access
  performed by the core is additionally recorded as a `StoreCall` event so that
  claims about which store operations run, and with which hint options, can be
  stated.  A store lookup with the JavaScript value `undefined` as id (which the
  source can produce via `block.header.nextBlocks[height]` when `height` is out of
  range) is modelled as a lookup of `none`, which yields no block.
* `item : Partial<X>` arguments are modelled as `X`; the comparator decides how
  much of the item is inspected, exactly as in the source.
* JavaScript `array.sort(cmp)` is modelled as a (stable) insertion sort by the
  comparator (`sortByCmp`).
* The `while`/`for` traversal of `indexBlockFor` is embedded as a small-step
  function `stepSearch` on `SearchState` plus a fuelled driver `runSearch`;
  the driver also returns the list of traversal events (`Ev`) and store calls.
  A result of `none` means the fuel ran out; `some r` is the function's result.
* `dispose?: () => void` on the database options is a teardown hook with no
  bearing on any operation here and is omitted from the options structure.
-/

/-- `string | number` values (block/tip `version` fields). -/
abbrev StrOrNum : Type := String ⊕ Int

/-- Header for JSON blocks in the skip chain (`ArchiveBlockHeader`). -/
structure ArchiveBlockHeader where
  id : String
  db : String
  key : String
  value : String
  dataType : String
  dataSort : String
  nextBlocks : List String
  numNextBlocks : Nat
  numNextItems : Nat
deriving DecidableEq, Repr

/-- Block base with `header`, `data` and `version` metadata (`ArchiveBlock`). -/
structure ArchiveBlock (X : Type) where
  header : ArchiveBlockHeader
  data : List X
  version : Option StrOrNum := none
deriving DecidableEq, Repr

/-- Tip record format (`ArchiveTipRecord`). -/
structure ArchiveTipRecord where
  id : String
  db : String
  key : String
  value : String
  blockId : String
  version : Option StrOrNum := none
deriving DecidableEq, Repr

/-- Block fetching options (`ArchiveGetBlockOptions`). -/
structure ArchiveGetBlockOptions where
  forUpdate : Option Bool := none
  reverse : Option Bool := none
  version : Option StrOrNum := none
deriving DecidableEq, Repr

/-- Tip fetching options (`ArchiveGetTipOptions`). -/
structure ArchiveGetTipOptions where
  forInsert : Option Bool := none
  forCompact : Option Bool := none
deriving DecidableEq, Repr

/-- One call to an external store, with the options the core passed along.
`getBlock`'s id is `Option String` because the source can index past the end of
`nextBlocks` and hand the resulting `undefined` to the block store. -/
inductive StoreCall where
  | getTip (db : String) (key : String) (value : String) (options : ArchiveGetTipOptions)
  | getBlock (id : Option String) (options : Option ArchiveGetBlockOptions)
deriving DecidableEq, Repr

/-- Each property is indexed separately (`ArchiveIndex`).  The two abstract
store interfaces bound to the index are modelled as association lists. -/
structure ArchiveIndex (X : Type) where
  name : String
  getter : X → List String
  sorter : X → X → Int
  blockDatabase : List (String × ArchiveBlock X)
  tipDatabase : List ((String × String × String) × ArchiveTipRecord)

/-- Block enriched with index references (`ArchiveIndexBlockOfType`): the
`index` field of the source is threaded separately as an explicit `ArchiveIndex`
argument (the source only ever copies it through unchanged), the data fields are
kept here. -/
structure ArchiveIndexBlock (X : Type) where
  header : ArchiveBlockHeader
  data : List X
  nextBlocksFirstKey : Option (List X) := none
  nextBlocksLastKey : Option (List X) := none
  indexValue : String
deriving DecidableEq, Repr

/-- Client archive database options (`ArchiveDatabaseOptions`); the `dispose`
teardown hook is omitted (function-valued, never invoked by the core). -/
structure ArchiveDatabaseOptions where
  strictOrdering : Option Bool := none
deriving DecidableEq, Repr

/-- The block-chain database binding (`ArchiveDatabase`). -/
structure ArchiveDatabase (X : Type) where
  dbName : String
  indices : List (ArchiveIndex X)
  options : Option ArchiveDatabaseOptions := none

/-- Truthiness of `this.options?.strictOrdering`. -/
def strictOrd {X : Type} (db : ArchiveDatabase X) : Bool :=
  match db.options with
  | none => false
  | some o => match o.strictOrdering with
    | some b => b
    | none => false

/-- Model of the block store fetch: first association for `id`. -/
def lookupBlock {X : Type} : List (String × ArchiveBlock X) → String → Option (ArchiveBlock X)
  | [], _ => none
  | (k, b) :: rest, id => if k = id then some b else lookupBlock rest id

/-- Model of the tip store fetch keyed by `(db, key, value)`. -/
def lookupTip : List ((String × String × String) × ArchiveTipRecord) →
    String → String → String → Option ArchiveTipRecord
  | [], _, _, _ => none
  | (k, t) :: rest, db, key, value =>
    if k = (db, key, value) then some t else lookupTip rest db key value

/-- JavaScript `array.sort(cmp)` helper: insert `x` into `l` before the first
element `y` with `cmp x y ≤ 0`. -/
def insertCmp {X : Type} (cmp : X → X → Int) (x : X) : List X → List X
  | [] => [x]
  | y :: ys => if cmp x y ≤ 0 then x :: y :: ys else y :: insertCmp cmp x ys

/-- Model of the in-place `data.sort(index.sorter)` of the source: a sort of the
list by the comparator. -/
def sortByCmp {X : Type} (cmp : X → X → Int) : List X → List X
  | [] => []
  | x :: xs => insertCmp cmp x (sortByCmp cmp xs)

/-- The indexed block built by `getTipBlock`/`getNextBlock`:
`{ data: block.data (conditionally sorted), header: block.header, index, indexValue }`.
Note the source's object literal carries no `nextBlocksFirstKey`/`nextBlocksLastKey`,
so those fields are absent (`none`) on every block the navigator returns. -/
def normBlock {X : Type} (cmp : X → X → Int) (strict : Bool) (indexValue : String)
    (b : ArchiveBlock X) : ArchiveIndexBlock X :=
  { header := b.header
    data := if strict then b.data else sortByCmp cmp b.data
    nextBlocksFirstKey := none
    nextBlocksLastKey := none
    indexValue := indexValue }

/-- `getTipBlock(index, indexValue, options)`: resolve the tip record (note the
source passes the literal `{}` as tip options), fetch the block it names, and
normalize the item order unless storage is declared pre-sorted. -/
def ArchiveDatabase.getTipBlock {X : Type} (db : ArchiveDatabase X) (ix : ArchiveIndex X)
    (indexValue : String) (options : Option ArchiveGetBlockOptions := none) :
    Option (ArchiveIndexBlock X) × List StoreCall :=
  let tipCall := StoreCall.getTip db.dbName ix.name indexValue {}
  match lookupTip ix.tipDatabase db.dbName ix.name indexValue with
  | none => (none, [tipCall])
  | some t =>
    if t.blockId = "" then (none, [tipCall])
    else
      match lookupBlock ix.blockDatabase t.blockId with
      | none => (none, [tipCall, StoreCall.getBlock (some t.blockId) options])
      | some b =>
        (some (normBlock ix.sorter (strictOrd db) indexValue b),
         [tipCall, StoreCall.getBlock (some t.blockId) options])

/-- `getNextBlock(block, height, options)`: follow the `height`-th next-block
pointer of `block`'s header.  The source guards only `nextBlocks.length < 1`;
for `height` past the end it passes the resulting `undefined` to the store,
modelled as a `getBlock none` call that yields no block. -/
def ArchiveDatabase.getNextBlock {X : Type} (db : ArchiveDatabase X) (ix : ArchiveIndex X)
    (block : ArchiveIndexBlock X) (height : Nat := 0)
    (options : Option ArchiveGetBlockOptions := none) :
    Option (ArchiveIndexBlock X) × List StoreCall :=
  if block.header.nextBlocks.length < 1 then (none, [])
  else
    let nid := block.header.nextBlocks.get? height
    let calls := [StoreCall.getBlock nid options]
    match nid with
    | none => (none, calls)
    | some id =>
      match lookupBlock ix.blockDatabase id with
      | none => (none, calls)
      | some nb => (some (normBlock ix.sorter (strictOrd db) block.indexValue nb), calls)

/-- The `{ reverse: true }` options object `indexBlockFor` creates for all of
its fetches. -/
def revOpt : ArchiveGetBlockOptions := { reverse := some true }

/-- Truthiness of `current.nextBlocks[i]` for an arbitrary (possibly negative or
out-of-range) index `i`: the string at `i` when it exists and is non-empty. -/
def truthyIdx (l : List String) (i : Int) : Option String :=
  if 0 ≤ i then
    match l.get? i.toNat with
    | none => none
    | some s => if s = "" then none else some s
  else none

/-- State of the `indexBlockFor` traversal: the current block (`block`, whose
header is the source's `current`), the level cursor `i` and the `ascending`
flag. -/
structure SearchState (X : Type) where
  block : ArchiveIndexBlock X
  level : Int
  ascending : Bool
deriving DecidableEq, Repr

/-- Traversal events of one `indexBlockFor` step, for stating claims about the
search: a comparison that broke at the current level (`stop`), a missing pointer
ending a level (`levelEmpty`), a level raise `i++` (`raise`), and the adoption
of a next block (`advance`). -/
inductive Ev where
  | stop
  | levelEmpty
  | raise (src : Int) (dst : Int)
  | advance (id : String)
deriving DecidableEq, Repr

/-- Result of one `indexBlockFor` step: the final block (`done`), the mid-search
`return null` of the source's line 212 (`fail`), or the successor state. -/
inductive StepRes (X : Type) where
  | done (b : ArchiveIndexBlock X)
  | fail
  | next (s : SearchState X) (e : Ev)
deriving DecidableEq, Repr

/-- One iteration of the `for`/`while` nest of `indexBlockFor`, flattened:
check `i >= 0`, then the `while` guard `current.nextBlocks[i]`, then the loop
body (compare the next block's first key — cached or fetched — against `item`,
and break / raise / advance accordingly).  Both a comparison break and a failed
`while` guard fall through to the `for` update `i--, ascending = false`. -/
def stepSearch {X : Type} (db : ArchiveDatabase X) (ix : ArchiveIndex X) (item : X)
    (s : SearchState X) : StepRes X × List StoreCall :=
  if s.level < 0 then (StepRes.done s.block, [])
  else
    match truthyIdx s.block.header.nextBlocks s.level with
    | none => (StepRes.next ⟨s.block, s.level - 1, false⟩ Ev.levelEmpty, [])
    | some id =>
      match s.block.nextBlocksFirstKey with
      | some fk =>
        -- cached first-key path; `fk[i]` past the end of the cache is JS
        -- `undefined`, for which a numeric comparator yields NaN and the
        -- `>= 0` test is false
        let pass : Bool :=
          match fk.get? s.level.toNat with
          | some k => decide (0 ≤ ix.sorter k item)
          | none => false
        if pass then (StepRes.next ⟨s.block, s.level - 1, false⟩ Ev.stop, [])
        else if s.ascending && decide (s.level < (s.block.header.nextBlocks.length : Int) - 1) then
          (StepRes.next ⟨s.block, s.level + 1, s.ascending⟩ (Ev.raise s.level (s.level + 1)), [])
        else
          match db.getNextBlock ix s.block s.level.toNat (some revOpt) with
          | (none, cs) => (StepRes.fail, cs)
          | (some nb, cs) =>
            (StepRes.next
              ⟨nb, min s.level ((nb.header.nextBlocks.length : Int) - 1), s.ascending⟩
              (Ev.advance id), cs)
      | none =>
        match db.getNextBlock ix s.block s.level.toNat (some revOpt) with
        | (none, cs) => (StepRes.next ⟨s.block, s.level - 1, false⟩ Ev.stop, cs)
        | (some nb, cs) =>
          match nb.data.head? with
          | none => (StepRes.next ⟨s.block, s.level - 1, false⟩ Ev.stop, cs)
          | some x =>
            if 0 ≤ ix.sorter x item then
              (StepRes.next ⟨s.block, s.level - 1, false⟩ Ev.stop, cs)
            else if s.ascending && decide (s.level < (s.block.header.nextBlocks.length : Int) - 1) then
              (StepRes.next ⟨s.block, s.level + 1, s.ascending⟩ (Ev.raise s.level (s.level + 1)), cs)
            else
              (StepRes.next
                ⟨nb, min s.level ((nb.header.nextBlocks.length : Int) - 1), s.ascending⟩
                (Ev.advance id), cs)

/-- Fuelled driver for `stepSearch`.  First component: `none` when the fuel ran
out, otherwise `some` of the source's return value (`some b` for a found block,
`none` for the mid-search `return null`).  Second: the traversal events;
third: the store calls. -/
def runSearch {X : Type} (db : ArchiveDatabase X) (ix : ArchiveIndex X) (item : X) :
    Nat → SearchState X → Option (Option (ArchiveIndexBlock X)) × List Ev × List StoreCall
  | 0, _ => (none, [], [])
  | Nat.succ fuel, s =>
    match stepSearch db ix item s with
    | (StepRes.done b, cs) => (some (some b), [], cs)
    | (StepRes.fail, cs) => (some none, [], cs)
    | (StepRes.next s2 e, cs) =>
      let r := runSearch db ix item fuel s2
      (r.1, e :: r.2.1, cs ++ r.2.2)

/-- `indexBlockFor(index, indexValue, item)`: fetch the tip block with
`{ reverse: true }` and run the multi-level backward descent from its highest
populated level. -/
def ArchiveDatabase.indexBlockFor {X : Type} (db : ArchiveDatabase X) (ix : ArchiveIndex X)
    (indexValue : String) (item : X) (fuel : Nat) :
    Option (Option (ArchiveIndexBlock X)) × List Ev × List StoreCall :=
  match db.getTipBlock ix indexValue (some revOpt) with
  | (none, cs) => (some none, [], cs)
  | (some b, cs) =>
    let r := runSearch db ix item fuel ⟨b, (b.header.nextBlocks.length : Int) - 1, true⟩
    (r.1, r.2.1, cs ++ r.2.2)

/-- Inner loop of the equality search, a guarded binary search. -/
def sortedEqGo {X : Type} (cmp : X → X → Int) (l : List X) (item : X) :
    Nat → Int → Int → Int
  | 0, _, _ => -1
  | Nat.succ fuel, lo, hi =>
    if hi < lo then -1
    else
      let mid := (lo + hi) / 2
      match l.get? mid.toNat with
      | none => -1
      | some x =>
        let c := cmp x item
        if c = 0 then mid
        else if 0 < c then sortedEqGo cmp l item fuel lo (mid - 1)
        else sortedEqGo cmp l item fuel (mid + 1) hi

/-- Modelled from the spec: the source calls `sorted.eq` from the external
`sorted-array-functions` npm package, whose code is not part of this repository.
The spec describes it as "an equality search (binary search over the block's
sorted items using the comparator)" that finds an item comparing equal, with the
index `-1` denoting a miss (`indexItem` tests `ind < 0`). -/
def sortedEq {X : Type} (l : List X) (item : X) (cmp : X → X → Int) : Int :=
  sortedEqGo cmp l item (l.length + 1) 0 ((l.length : Int) - 1)

/-- `indexItem(index, indexValue, item)`: skip search, then equality search in
the bounding block.  First component `none` means the skip search ran out of
fuel. -/
def ArchiveDatabase.indexItem {X : Type} (db : ArchiveDatabase X) (ix : ArchiveIndex X)
    (indexValue : String) (item : X) (fuel : Nat) :
    Option (Option X) × List StoreCall :=
  match db.indexBlockFor ix indexValue item fuel with
  | (none, _, cs) => (none, cs)
  | (some none, _, cs) => (some none, cs)
  | (some (some b), _, cs) =>
    let ind := sortedEq b.data item ix.sorter
    (some (if ind < 0 then none else b.data.get? ind.toNat), cs)

/-- `findIndex(indexKey)`: linear scan of the registry; an unmatched name is the
thrown `unknown index …` error. -/
def ArchiveDatabase.findIndex {X : Type} (db : ArchiveDatabase X) (indexKey : String) :
    Except String (ArchiveIndex X) :=
  match db.indices.find? (fun x => x.name == indexKey) with
  | none => Except.error ("unknown index " ++ indexKey)
  | some ix => Except.ok ix

/-- `findTipBlock(indexKey, indexValue)`: requires the `strictOrdering`
configuration (throws before any store access otherwise), then resolves the
index by name and fetches the tip block with no options. -/
def ArchiveDatabase.findTipBlock {X : Type} (db : ArchiveDatabase X)
    (indexKey : String) (indexValue : String) :
    Except String (Option (ArchiveIndexBlock X)) × List StoreCall :=
  if strictOrd db = false then
    (Except.error "use getTipBlock() w/o strictOrdering", [])
  else
    match db.findIndex indexKey with
    | Except.error e => (Except.error e, [])
    | Except.ok ix =>
      let r := db.getTipBlock ix indexValue none
      (Except.ok r.1, r.2)

/-- `findBlockFor(indexKey, indexValue, item)`: registry resolution, then
`indexBlockFor`. -/
def ArchiveDatabase.findBlockFor {X : Type} (db : ArchiveDatabase X)
    (indexKey : String) (indexValue : String) (item : X) (fuel : Nat) :
    Except String (Option (Option (ArchiveIndexBlock X))) × List Ev × List StoreCall :=
  match db.findIndex indexKey with
  | Except.error e => (Except.error e, [], [])
  | Except.ok ix =>
    let r := db.indexBlockFor ix indexValue item fuel
    (Except.ok r.1, r.2.1, r.2.2)

/-- `findItem(indexKey, indexValue, item)`: registry resolution, then
`indexItem`. -/
def ArchiveDatabase.findItem {X : Type} (db : ArchiveDatabase X)
    (indexKey : String) (indexValue : String) (item : X) (fuel : Nat) :
    Except String (Option (Option X)) × List StoreCall :=
  match db.findIndex indexKey with
  | Except.error e => (Except.error e, [])
  | Except.ok ix =>
    let r := db.indexItem ix indexValue item fuel
    (Except.ok r.1, r.2)

/-! ## Event predicates and the re-ascent discipline -/

/-- Is the event a level raise (`i++`)? -/
def evIsRaise : Ev → Bool
  | Ev.raise _ _ => true
  | _ => false

/-- Is the event the adoption of a next block? -/
def evIsAdvance : Ev → Bool
  | Ev.advance _ => true
  | _ => false

/-- Is the event a level drop (the `for` update `i--` after a comparison break
or an exhausted level)? -/
def evIsDrop : Ev → Bool
  | Ev.stop => true
  | Ev.levelEmpty => true
  | _ => false

/-- The claim's reading of the re-ascent rule: every raise happens on the step
immediately following an advance (`prev` is the preceding event). -/
def raisesOnlyAfterAdvanceB : Option Ev → List Ev → Bool
  | _, [] => true
  | prev, e :: rest =>
    ((!evIsRaise e) ||
      (match prev with
        | some p => evIsAdvance p
        | none => false)) &&
      raisesOnlyAfterAdvanceB (some e) rest

/-- Check of a single event for the actual re-ascent discipline: a raise must
happen before any level drop, after at least one advance, directly after an
advance or another raise, and must go up by exactly one level. -/
def raiseStepOk (prev : Option Ev) (seenAdv : Bool) (seenDrop : Bool) : Ev → Bool
  | Ev.raise src dst =>
    (!seenDrop) && seenAdv && (dst == src + 1) &&
      (match prev with
        | some p => evIsAdvance p || evIsRaise p
        | none => false)
  | _ => true

/-- The actual re-ascent discipline of the traversal, folded over a trace. -/
def raiseDisciplineB : Option Ev → Bool → Bool → List Ev → Bool
  | _, _, _, [] => true
  | prev, seenAdv, seenDrop, e :: rest =>
    raiseStepOk prev seenAdv seenDrop e &&
      raiseDisciplineB (some e) (seenAdv || evIsAdvance e) (seenDrop || evIsDrop e) rest

/-- A store call carries exactly the caller's block options unchanged, and the
fixed empty hint object on the tip fetch (the source hard-codes `{}` there). -/
def callOptsOk (o : Option ArchiveGetBlockOptions) : StoreCall → Bool
  | StoreCall.getBlock _ oo => decide (oo = o)
  | StoreCall.getTip _ _ _ topts => decide (topts = ({} : ArchiveGetTipOptions))

/-- `x` is stored in some block of the index's block store. -/
def StoredItem {X : Type} (ix : ArchiveIndex X) (x : X) : Prop :=
  ∃ p ∈ ix.blockDatabase, x ∈ p.2.data

/-! ## Concrete chains used by counterexamples and witnesses

`ascIx`/`ascDb`: the spec's scenario 2 — older block `[1, 5, 9]`, tip block
`[10, 15]` with one level-0 pointer to the older block, ascending comparator.
`descIx`/`descDb`: the same blocks under the descending comparator (so the
chain ascends from the tip in comparator order).
`c3Ix`/`c3Db`: a chain with uneven per-block level counts (tip has one level,
its predecessor three).
`strictIx` with `strictDb`/`nsDb`: a store holding an unsorted block, bound to
a database with and without the `strictOrdering` configuration. -/

def hdrT : ArchiveBlockHeader :=
  { id := "T", db := "adb", key := "k", value := "v", dataType := "", dataSort := ""
    nextBlocks := ["O"], numNextBlocks := 1, numNextItems := 2 }

def hdrO : ArchiveBlockHeader :=
  { id := "O", db := "adb", key := "k", value := "v", dataType := "", dataSort := ""
    nextBlocks := [], numNextBlocks := 0, numNextItems := 3 }

def blkT : ArchiveBlock Int := { header := hdrT, data := [10, 15] }

def blkO : ArchiveBlock Int := { header := hdrO, data := [1, 5, 9] }

def tipTV : ArchiveTipRecord :=
  { id := "t", db := "adb", key := "k", value := "v", blockId := "T" }

def ascSorter : Int → Int → Int := fun a b => a - b

def descSorter : Int → Int → Int := fun a b => b - a

def ascIx : ArchiveIndex Int :=
  { name := "k", getter := fun _ => [], sorter := ascSorter
    blockDatabase := [("T", blkT), ("O", blkO)]
    tipDatabase := [(("adb", "k", "v"), tipTV)] }

def ascDb : ArchiveDatabase Int := { dbName := "adb", indices := [ascIx] }

def descIx : ArchiveIndex Int :=
  { name := "k", getter := fun _ => [], sorter := descSorter
    blockDatabase := [("T", blkT), ("O", blkO)]
    tipDatabase := [(("adb", "k", "v"), tipTV)] }

def descDb : ArchiveDatabase Int := { dbName := "adb", indices := [descIx] }

def c3HdrT : ArchiveBlockHeader :=
  { id := "T", db := "adb", key := "k", value := "v", dataType := "", dataSort := ""
    nextBlocks := ["B"], numNextBlocks := 1, numNextItems := 1 }

def c3HdrB : ArchiveBlockHeader :=
  { id := "B", db := "adb", key := "k", value := "v", dataType := "", dataSort := ""
    nextBlocks := ["C", "C", "C"], numNextBlocks := 3, numNextItems := 1 }

def c3HdrC : ArchiveBlockHeader :=
  { id := "C", db := "adb", key := "k", value := "v", dataType := "", dataSort := ""
    nextBlocks := [], numNextBlocks := 0, numNextItems := 1 }

def c3Ix : ArchiveIndex Int :=
  { name := "k", getter := fun _ => [], sorter := ascSorter
    blockDatabase :=
      [("T", { header := c3HdrT, data := [40] }),
       ("B", { header := c3HdrB, data := [30] }),
       ("C", { header := c3HdrC, data := [20] })]
    tipDatabase := [(("adb", "k", "v"), tipTV)] }

def c3Db : ArchiveDatabase Int := { dbName := "adb", indices := [c3Ix] }

def hdrU : ArchiveBlockHeader :=
  { id := "U", db := "adb", key := "k", value := "v", dataType := "", dataSort := ""
    nextBlocks := [], numNextBlocks := 0, numNextItems := 3 }

def hdrU2 : ArchiveBlockHeader :=
  { id := "U2", db := "adb", key := "k", value := "v", dataType := "", dataSort := ""
    nextBlocks := ["U"], numNextBlocks := 1, numNextItems := 1 }

def blkU : ArchiveBlock Int := { header := hdrU, data := [3, 1, 2] }

def strictIx : ArchiveIndex Int :=
  { name := "k", getter := fun _ => [], sorter := ascSorter
    blockDatabase := [("U", blkU), ("U2", { header := hdrU2, data := [7] })]
    tipDatabase :=
      [(("adb", "k", "v"),
        { id := "t", db := "adb", key := "k", value := "v", blockId := "U" })] }

def strictDb : ArchiveDatabase Int :=
  { dbName := "adb", indices := [strictIx]
    options := some { strictOrdering := some true } }

def nsDb : ArchiveDatabase Int := { dbName := "adb", indices := [strictIx] }

def u2IndexBlock : ArchiveIndexBlock Int :=
  { header := hdrU2, data := [7], indexValue := "v" }

def tIndexBlock : ArchiveIndexBlock Int :=
  { header := hdrT, data := [10, 15], indexValue := "v" }

def dangHdr : ArchiveBlockHeader :=
  { id := "D", db := "adb", key := "k", value := "v", dataType := "", dataSort := ""
    nextBlocks := ["Z"], numNextBlocks := 1, numNextItems := 1 }

def dangState : SearchState Int :=
  { block := { header := dangHdr, data := [10], indexValue := "v" }
    level := 0, ascending := true }

/-! ## Comparator assumptions

The spec supplies, per index, a "total order over items"; `IsCmp` is the
corresponding contract on an integer-valued comparator. -/

/-- A well-behaved comparator: reflexive (`c x x = 0`), asymmetric, total and
transitive, as expected of the externally supplied total order. -/
def IsCmp {X : Type} (c : X → X → Int) : Prop :=
  (∀ x, c x x = 0) ∧ (∀ x y, c x y < 0 → 0 < c y x) ∧
    (∀ x y, c x y ≤ 0 ∨ c y x ≤ 0) ∧
    (∀ x y z, c x y ≤ 0 → c y z ≤ 0 → c x z ≤ 0)

/-! ## Helper lemmas about the sort model -/

theorem mem_insertCmp {X : Type} (cmp : X → X → Int) (x a : X) (l : List X) :
    a ∈ insertCmp cmp x l ↔ a = x ∨ a ∈ l := by
  induction l with
  | nil => simp [insertCmp]
  | cons y ys ih =>
    simp only [insertCmp]
    split
    · simp [List.mem_cons]
    · simp only [List.mem_cons, ih]
      tauto

theorem mem_sortByCmp {X : Type} (cmp : X → X → Int) (a : X) (l : List X) :
    a ∈ sortByCmp cmp l ↔ a ∈ l := by
  induction l with
  | nil => simp [sortByCmp]
  | cons x xs ih => simp [sortByCmp, mem_insertCmp, ih]

theorem insertCmp_ne_nil {X : Type} (cmp : X → X → Int) (x : X) (l : List X) :
    insertCmp cmp x l ≠ [] := by
  cases l with
  | nil => simp [insertCmp]
  | cons y ys =>
    simp only [insertCmp]
    split <;> simp

theorem sortByCmp_ne_nil {X : Type} (cmp : X → X → Int) (x : X) (l : List X) :
    sortByCmp cmp (x :: l) ≠ [] := by
  simp only [sortByCmp]
  exact insertCmp_ne_nil cmp x _

theorem insertCmp_head? {X : Type} (cmp : X → X → Int) (x : X) (l : List X) (z : X)
    (h : (insertCmp cmp x l).head? = some z) : z = x ∨ l.head? = some z := by
  cases l with
  | nil =>
    simp [insertCmp] at h
    exact Or.inl h.symm
  | cons y ys =>
    simp only [insertCmp] at h
    split at h
    · simp at h
      exact Or.inl h.symm
    · simp at h
      exact Or.inr (by simp [h])

theorem chain'_insertCmp {X : Type} (cmp : X → X → Int)
    (htot : ∀ a b : X, cmp a b ≤ 0 ∨ cmp b a ≤ 0) (x : X) (l : List X)
    (h : List.Chain' (fun a b => cmp a b ≤ 0) l) :
    List.Chain' (fun a b => cmp a b ≤ 0) (insertCmp cmp x l) := by
  induction l with
  | nil => simp [insertCmp]
  | cons y ys ih =>
    rw [List.chain'_cons'] at h
    simp only [insertCmp]
    split
    · rename_i hxy
      rw [List.chain'_cons']
      refine ⟨?_, List.chain'_cons'.mpr h⟩
      intro z hz
      simp at hz
      rw [← hz]
      exact hxy
    · rename_i hxy
      rw [List.chain'_cons']
      refine ⟨?_, ih h.2⟩
      intro z hz
      rcases insertCmp_head? cmp x ys z hz with hzx | hz2
      · subst hzx
        rcases htot z y with h1 | h1
        · exact absurd h1 hxy
        · exact h1
      · exact h.1 z hz2

theorem chain'_sortByCmp {X : Type} (cmp : X → X → Int)
    (htot : ∀ a b : X, cmp a b ≤ 0 ∨ cmp b a ≤ 0) (l : List X) :
    List.Chain' (fun a b => cmp a b ≤ 0) (sortByCmp cmp l) := by
  induction l with
  | nil => simp [sortByCmp]
  | cons x xs ih => exact chain'_insertCmp cmp htot x _ ih

theorem chain'_head_rel {X : Type} (cmp : X → X → Int)
    (htrans : ∀ a b c : X, cmp a b ≤ 0 → cmp b c ≤ 0 → cmp a c ≤ 0) :
    ∀ (rest : List X) (m y : X),
      List.Chain' (fun a b => cmp a b ≤ 0) (m :: rest) → y ∈ rest → cmp m y ≤ 0 := by
  intro rest
  induction rest with
  | nil =>
    intro m y _ hy
    simp at hy
  | cons z zs ih =>
    intro m y h hy
    rw [List.chain'_cons] at h
    rcases List.mem_cons.mp hy with rfl | hy2
    · exact h.1
    · exact htrans m z y h.1 (ih z y h.2 hy2)

/-- The head of the sorted list is a comparator-minimum of the original list. -/
theorem sortByCmp_head_min {X : Type} (cmp : X → X → Int) (hcmp : IsCmp cmp)
    (l : List X) (m : X) (hm : (sortByCmp cmp l).head? = some m) :
    ∀ y ∈ l, cmp m y ≤ 0 := by
  intro y hy
  have hy2 : y ∈ sortByCmp cmp l := (mem_sortByCmp cmp y l).mpr hy
  cases hs : sortByCmp cmp l with
  | nil =>
    rw [hs] at hy2
    simp at hy2
  | cons m0 rest =>
    rw [hs] at hm hy2
    simp at hm
    subst hm
    rcases List.mem_cons.mp hy2 with rfl | h2
    · simp [hcmp.1 y]
    · have hc := chain'_sortByCmp cmp hcmp.2.2.1 l
      rw [hs] at hc
      exact chain'_head_rel cmp hcmp.2.2.2 rest m0 y hc h2

/-- Members of the sorted list are members of the original list. -/
theorem head?_sortByCmp_mem {X : Type} (cmp : X → X → Int) (l : List X) (m : X)
    (hm : (sortByCmp cmp l).head? = some m) : m ∈ l := by
  have : m ∈ sortByCmp cmp l := by
    cases hs : sortByCmp cmp l with
    | nil => rw [hs] at hm; simp at hm
    | cons a rest => rw [hs] at hm; simp at hm; simp [hs, hm]
  exact (mem_sortByCmp cmp m l).mp this

/-! ## Helper lemmas about the store models -/

theorem lookupBlock_mem {X : Type} {S : List (String × ArchiveBlock X)} {id : String}
    {b : ArchiveBlock X} (h : lookupBlock S id = some b) : ∃ k, (k, b) ∈ S := by
  induction S with
  | nil => simp [lookupBlock] at h
  | cons p rest ih =>
    obtain ⟨k, bb⟩ := p
    simp only [lookupBlock] at h
    split at h
    · cases h
      exact ⟨k, List.mem_cons_self _ _⟩
    · obtain ⟨k2, hk2⟩ := ih h
      exact ⟨k2, List.mem_cons_of_mem _ hk2⟩

theorem truthyIdx_eq_some {l : List String} {i : Int} {id : String}
    (h : truthyIdx l i = some id) :
    0 ≤ i ∧ l.get? i.toNat = some id ∧ id ≠ "" := by
  unfold truthyIdx at h
  split at h
  · rename_i h0
    refine ⟨h0, ?_⟩
    cases hg : l.get? i.toNat with
    | none =>
      rw [hg] at h
      simp at h
    | some s =>
      rw [hg] at h
      dsimp only at h
      by_cases hne : s = ""
      · rw [if_pos hne] at h
        simp at h
      · rw [if_neg hne] at h
        injection h with h2
        subst h2
        exact ⟨rfl, hne⟩
  · simp at h

theorem truthyIdx_none_of_neg {l : List String} {i : Int} (h : i < 0) :
    truthyIdx l i = none := by
  unfold truthyIdx
  rw [if_neg (by omega)]

/-! ## Navigator equations and inversions -/

theorem getTipBlock_eq_some {X : Type} {db : ArchiveDatabase X} {ix : ArchiveIndex X}
    {v : String} {o : Option ArchiveGetBlockOptions} {b : ArchiveIndexBlock X}
    (h : (db.getTipBlock ix v o).1 = some b) :
    ∃ t sb, lookupTip ix.tipDatabase db.dbName ix.name v = some t ∧
      t.blockId ≠ "" ∧ lookupBlock ix.blockDatabase t.blockId = some sb ∧
      b = normBlock ix.sorter (strictOrd db) v sb := by
  unfold ArchiveDatabase.getTipBlock at h
  split at h
  · simp at h
  · rename_i t ht
    split at h
    · simp at h
    · rename_i hne
      split at h
      · simp at h
      · rename_i sb hsb
        simp at h
        exact ⟨t, sb, ht, hne, hsb, h.symm⟩

theorem getTipBlock_eq_of {X : Type} (db : ArchiveDatabase X) (ix : ArchiveIndex X)
    (v : String) (o : Option ArchiveGetBlockOptions) {t : ArchiveTipRecord}
    {sb : ArchiveBlock X}
    (ht : lookupTip ix.tipDatabase db.dbName ix.name v = some t)
    (hne : t.blockId ≠ "") (hsb : lookupBlock ix.blockDatabase t.blockId = some sb) :
    db.getTipBlock ix v o =
      (some (normBlock ix.sorter (strictOrd db) v sb),
       [StoreCall.getTip db.dbName ix.name v {},
        StoreCall.getBlock (some t.blockId) o]) := by
  unfold ArchiveDatabase.getTipBlock
  rw [ht]
  simp [hne, hsb]

theorem getNextBlock_eq_of {X : Type} (db : ArchiveDatabase X) (ix : ArchiveIndex X)
    (blk : ArchiveIndexBlock X) (h : Nat) (o : Option ArchiveGetBlockOptions)
    {id : String} {sb : ArchiveBlock X}
    (hid : blk.header.nextBlocks.get? h = some id)
    (hsb : lookupBlock ix.blockDatabase id = some sb) :
    db.getNextBlock ix blk h o =
      (some (normBlock ix.sorter (strictOrd db) blk.indexValue sb),
       [StoreCall.getBlock (some id) o]) := by
  have hlen : ¬ blk.header.nextBlocks.length < 1 := by
    have := List.get?_mem hid
    cases hb : blk.header.nextBlocks with
    | nil => rw [hb] at this; simp at this
    | cons a rest => simp [hb]
  unfold ArchiveDatabase.getNextBlock
  rw [if_neg hlen, hid]
  simp [hsb]

theorem getNextBlock_eq_some {X : Type} {db : ArchiveDatabase X} {ix : ArchiveIndex X}
    {blk : ArchiveIndexBlock X} {h : Nat} {o : Option ArchiveGetBlockOptions}
    {nb : ArchiveIndexBlock X}
    (hr : (db.getNextBlock ix blk h o).1 = some nb) :
    ∃ id sb, blk.header.nextBlocks.get? h = some id ∧
      lookupBlock ix.blockDatabase id = some sb ∧
      nb = normBlock ix.sorter (strictOrd db) blk.indexValue sb := by
  unfold ArchiveDatabase.getNextBlock at hr
  split at hr
  · simp at hr
  · dsimp only at hr
    split at hr
    · simp at hr
    · rename_i id hid
      split at hr
      · simp at hr
      · rename_i sb hsb
        simp at hr
        exact ⟨id, sb, hid, hsb, hr.symm⟩

/-! ## Step and run equations for the search loop -/

theorem stepSearch_done {X : Type} (db : ArchiveDatabase X) (ix : ArchiveIndex X)
    (item : X) (s : SearchState X) (h : s.level < 0) :
    stepSearch db ix item s = (StepRes.done s.block, []) := by
  unfold stepSearch
  rw [if_pos h]

theorem stepSearch_levelEmpty {X : Type} (db : ArchiveDatabase X) (ix : ArchiveIndex X)
    (item : X) (s : SearchState X) (h0 : ¬ s.level < 0)
    (htr : truthyIdx s.block.header.nextBlocks s.level = none) :
    stepSearch db ix item s =
      (StepRes.next ⟨s.block, s.level - 1, false⟩ Ev.levelEmpty, []) := by
  unfold stepSearch
  rw [if_neg h0, htr]

theorem stepSearch_stop_missing {X : Type} (db : ArchiveDatabase X) (ix : ArchiveIndex X)
    (item : X) (s : SearchState X) {id : String} {cs : List StoreCall}
    (h0 : ¬ s.level < 0)
    (htr : truthyIdx s.block.header.nextBlocks s.level = some id)
    (hfk : s.block.nextBlocksFirstKey = none)
    (hnb : db.getNextBlock ix s.block s.level.toNat (some revOpt) = (none, cs)) :
    stepSearch db ix item s = (StepRes.next ⟨s.block, s.level - 1, false⟩ Ev.stop, cs) := by
  unfold stepSearch
  rw [if_neg h0, htr]
  simp only [hfk, hnb]

theorem stepSearch_stop_empty {X : Type} (db : ArchiveDatabase X) (ix : ArchiveIndex X)
    (item : X) (s : SearchState X) {id : String} {nb : ArchiveIndexBlock X}
    {cs : List StoreCall} (h0 : ¬ s.level < 0)
    (htr : truthyIdx s.block.header.nextBlocks s.level = some id)
    (hfk : s.block.nextBlocksFirstKey = none)
    (hnb : db.getNextBlock ix s.block s.level.toNat (some revOpt) = (some nb, cs))
    (hhead : nb.data.head? = none) :
    stepSearch db ix item s = (StepRes.next ⟨s.block, s.level - 1, false⟩ Ev.stop, cs) := by
  unfold stepSearch
  rw [if_neg h0, htr]
  simp only [hfk, hnb, hhead]

theorem stepSearch_stop_ge {X : Type} (db : ArchiveDatabase X) (ix : ArchiveIndex X)
    (item : X) (s : SearchState X) {id : String} {nb : ArchiveIndexBlock X} {x : X}
    {cs : List StoreCall} (h0 : ¬ s.level < 0)
    (htr : truthyIdx s.block.header.nextBlocks s.level = some id)
    (hfk : s.block.nextBlocksFirstKey = none)
    (hnb : db.getNextBlock ix s.block s.level.toNat (some revOpt) = (some nb, cs))
    (hhead : nb.data.head? = some x) (hge : 0 ≤ ix.sorter x item) :
    stepSearch db ix item s = (StepRes.next ⟨s.block, s.level - 1, false⟩ Ev.stop, cs) := by
  unfold stepSearch
  rw [if_neg h0, htr]
  simp only [hfk, hnb, hhead]
  rw [if_pos hge]

theorem stepSearch_raise {X : Type} (db : ArchiveDatabase X) (ix : ArchiveIndex X)
    (item : X) (s : SearchState X) {id : String} {nb : ArchiveIndexBlock X} {x : X}
    {cs : List StoreCall} (h0 : ¬ s.level < 0)
    (htr : truthyIdx s.block.header.nextBlocks s.level = some id)
    (hfk : s.block.nextBlocksFirstKey = none)
    (hnb : db.getNextBlock ix s.block s.level.toNat (some revOpt) = (some nb, cs))
    (hhead : nb.data.head? = some x) (hlt : ¬ 0 ≤ ix.sorter x item)
    (hbc : (s.ascending &&
      decide (s.level < (s.block.header.nextBlocks.length : Int) - 1)) = true) :
    stepSearch db ix item s =
      (StepRes.next ⟨s.block, s.level + 1, s.ascending⟩ (Ev.raise s.level (s.level + 1)), cs) := by
  unfold stepSearch
  rw [if_neg h0, htr]
  simp only [hfk, hnb, hhead]
  rw [if_neg hlt, if_pos hbc]

theorem stepSearch_advance {X : Type} (db : ArchiveDatabase X) (ix : ArchiveIndex X)
    (item : X) (s : SearchState X) {id : String} {nb : ArchiveIndexBlock X} {x : X}
    {cs : List StoreCall} (h0 : ¬ s.level < 0)
    (htr : truthyIdx s.block.header.nextBlocks s.level = some id)
    (hfk : s.block.nextBlocksFirstKey = none)
    (hnb : db.getNextBlock ix s.block s.level.toNat (some revOpt) = (some nb, cs))
    (hhead : nb.data.head? = some x) (hlt : ¬ 0 ≤ ix.sorter x item)
    (hbc : (s.ascending &&
      decide (s.level < (s.block.header.nextBlocks.length : Int) - 1)) = false) :
    stepSearch db ix item s =
      (StepRes.next
        ⟨nb, min s.level ((nb.header.nextBlocks.length : Int) - 1), s.ascending⟩
        (Ev.advance id), cs) := by
  unfold stepSearch
  rw [if_neg h0, htr]
  simp only [hfk, hnb, hhead]
  rw [if_neg hlt, if_neg (by rw [hbc]; simp)]

theorem runSearch_zero {X : Type} (db : ArchiveDatabase X) (ix : ArchiveIndex X)
    (item : X) (s : SearchState X) :
    runSearch db ix item 0 s = (none, [], []) := rfl

theorem runSearch_succ {X : Type} (db : ArchiveDatabase X) (ix : ArchiveIndex X)
    (item : X) (fuel : Nat) (s : SearchState X) :
    runSearch db ix item (fuel + 1) s =
      match stepSearch db ix item s with
      | (StepRes.done b, cs) => (some (some b), [], cs)
      | (StepRes.fail, cs) => (some none, [], cs)
      | (StepRes.next s2 e, cs) =>
        ((runSearch db ix item fuel s2).1,
         e :: (runSearch db ix item fuel s2).2.1,
         cs ++ (runSearch db ix item fuel s2).2.2) := rfl

theorem runSearch_succ_done {X : Type} (db : ArchiveDatabase X) (ix : ArchiveIndex X)
    (item : X) (fuel : Nat) (s : SearchState X) {b : ArchiveIndexBlock X}
    {cs : List StoreCall} (h : stepSearch db ix item s = (StepRes.done b, cs)) :
    runSearch db ix item (fuel + 1) s = (some (some b), [], cs) := by
  rw [runSearch_succ, h]

theorem runSearch_succ_fail {X : Type} (db : ArchiveDatabase X) (ix : ArchiveIndex X)
    (item : X) (fuel : Nat) (s : SearchState X) {cs : List StoreCall}
    (h : stepSearch db ix item s = (StepRes.fail, cs)) :
    runSearch db ix item (fuel + 1) s = (some none, [], cs) := by
  rw [runSearch_succ, h]

theorem runSearch_succ_next {X : Type} (db : ArchiveDatabase X) (ix : ArchiveIndex X)
    (item : X) (fuel : Nat) (s : SearchState X) {s2 : SearchState X} {e : Ev}
    {cs : List StoreCall} (h : stepSearch db ix item s = (StepRes.next s2 e, cs)) :
    runSearch db ix item (fuel + 1) s =
      ((runSearch db ix item fuel s2).1,
       e :: (runSearch db ix item fuel s2).2.1,
       cs ++ (runSearch db ix item fuel s2).2.2) := by
  rw [runSearch_succ, h]

theorem indexBlockFor_tip_none {X : Type} (db : ArchiveDatabase X) (ix : ArchiveIndex X)
    (v : String) (item : X) (fuel : Nat) {cs : List StoreCall}
    (h : db.getTipBlock ix v (some revOpt) = (none, cs)) :
    db.indexBlockFor ix v item fuel = (some none, [], cs) := by
  unfold ArchiveDatabase.indexBlockFor
  rw [h]

theorem indexBlockFor_tip_some {X : Type} (db : ArchiveDatabase X) (ix : ArchiveIndex X)
    (v : String) (item : X) (fuel : Nat) {b : ArchiveIndexBlock X} {cs : List StoreCall}
    (h : db.getTipBlock ix v (some revOpt) = (some b, cs)) :
    db.indexBlockFor ix v item fuel =
      ((runSearch db ix item fuel ⟨b, (b.header.nextBlocks.length : Int) - 1, true⟩).1,
       (runSearch db ix item fuel ⟨b, (b.header.nextBlocks.length : Int) - 1, true⟩).2.1,
       cs ++ (runSearch db ix item fuel ⟨b, (b.header.nextBlocks.length : Int) - 1, true⟩).2.2) := by
  unfold ArchiveDatabase.indexBlockFor
  rw [h]

/-! ## Claims C6, C7, C8, C9, C10 -/

/-- **C6**: for every block and every level argument, `getNextBlock` returns an
absent result (`none`) without failing whenever the requested level does not
exist in the block's next-pointer list (it is past the end, in particular when
the list is empty) or the pointer at that level resolves to no stored block. -/
theorem C6_next_block_absent {X : Type} (db : ArchiveDatabase X) (ix : ArchiveIndex X)
    (blk : ArchiveIndexBlock X) (height : Nat) (o : Option ArchiveGetBlockOptions)
    (h : blk.header.nextBlocks.length ≤ height ∨
      ∃ id, blk.header.nextBlocks.get? height = some id ∧
        lookupBlock ix.blockDatabase id = none) :
    (db.getNextBlock ix blk height o).1 = none := by
  unfold ArchiveDatabase.getNextBlock
  split
  · rfl
  · dsimp only
    rcases h with hle | ⟨id, hid, hnone⟩
    · rw [List.get?_eq_none.mpr hle]
    · rw [hid]
      dsimp only
      rw [hnone]

/-- Witness for C6: level 5 of the tip block of the two-block chain does not
exist, and `getNextBlock` yields an absent result there. -/
theorem C6_next_block_absent_witness :
    tIndexBlock.header.nextBlocks.length ≤ 5 ∧
      (ascDb.getNextBlock ascIx tIndexBlock 5 none).1 = none :=
  ⟨by decide, C6_next_block_absent ascDb ascIx tIndexBlock 5 none (Or.inl (by decide))⟩

/-- **C7**: configuration errors fail synchronously with a descriptive error
and zero store calls: `findBlockFor`/`findItem` with an index name not in the
registry, and `findTipBlock` without the `strictOrdering` configuration. -/
theorem C7_config_errors {X : Type} (db : ArchiveDatabase X) (name v : String)
    (item : X) (fuel : Nat) (hname : ∀ ix ∈ db.indices, ix.name ≠ name) :
    db.findBlockFor name v item fuel =
        (Except.error ("unknown index " ++ name), [], []) ∧
      db.findItem name v item fuel = (Except.error ("unknown index " ++ name), []) ∧
      (strictOrd db = false →
        db.findTipBlock name v =
          (Except.error "use getTipBlock() w/o strictOrdering", [])) := by
  have hfind : List.find? (fun x => x.name == name) db.indices = none :=
    List.find?_eq_none.mpr (by
      intro x hx
      simpa using hname x hx)
  have hfi : db.findIndex name = Except.error ("unknown index " ++ name) := by
    unfold ArchiveDatabase.findIndex
    rw [hfind]
  refine ⟨?_, ?_, ?_⟩
  · unfold ArchiveDatabase.findBlockFor
    rw [hfi]
  · unfold ArchiveDatabase.findItem
    rw [hfi]
  · intro hs
    unfold ArchiveDatabase.findTipBlock
    rw [if_pos hs]

/-- Witness for C7: the registry of `ascDb` holds only the index named `k`, so
all three operations fail up front with the descriptive error and no store
calls. -/
theorem C7_config_errors_witness :
    (∀ ix ∈ ascDb.indices, ix.name ≠ "zzz") ∧
      ascDb.findBlockFor "zzz" "v" (0 : Int) 1 =
        (Except.error ("unknown index " ++ "zzz"), [], []) ∧
      ascDb.findItem "zzz" "v" (0 : Int) 1 =
        (Except.error ("unknown index " ++ "zzz"), []) ∧
      ascDb.findTipBlock "zzz" "v" =
        (Except.error "use getTipBlock() w/o strictOrdering", []) := by
  have h : ∀ ix ∈ ascDb.indices, ix.name ≠ "zzz" := by
    intro ix hix
    simp only [ascDb, List.mem_singleton] at hix
    subst hix
    decide
  obtain ⟨a, b, c⟩ := C7_config_errors ascDb "zzz" "v" (0 : Int) 1 h
  exact ⟨h, a, b, c rfl⟩

/-- **C8**: the navigator passes the caller-supplied block-fetch options through
to every block-store fetch unchanged (neither interpreting, altering, nor
dropping them); the tip-store fetch carries the fixed empty hint object, the
source hard-coding `{}` — no core operation accepts caller tip hints, so there
are no caller-supplied insert- or compaction-intent hints that could be dropped. -/
theorem C8_hint_passthrough {X : Type} (db : ArchiveDatabase X) (ix : ArchiveIndex X)
    (v : String) (blk : ArchiveIndexBlock X) (height : Nat)
    (o : Option ArchiveGetBlockOptions) :
    (db.getTipBlock ix v o).2.all (callOptsOk o) = true ∧
      (db.getNextBlock ix blk height o).2.all (callOptsOk o) = true := by
  constructor
  · unfold ArchiveDatabase.getTipBlock
    split
    · simp [callOptsOk]
    · split
      · simp [callOptsOk]
      · split <;> simp [callOptsOk]
  · unfold ArchiveDatabase.getNextBlock
    split
    · simp
    · dsimp only
      split
      · simp [callOptsOk]
      · split <;> simp [callOptsOk]

/-- **C9**: in `indexBlockFor`, with no first-key cache present, a next block
that is absent or has no items is treated exactly like a comparison that found
the next block's first item `≥` the queried item: the step breaks at the
current level (same block, level decremented, ascending flag cleared) and never
advances into the missing or empty block. -/
theorem C9_missing_next_breaks {X : Type} (db : ArchiveDatabase X) (ix : ArchiveIndex X)
    (item : X) (s : SearchState X) (id : String)
    (hfk : s.block.nextBlocksFirstKey = none)
    (htr : truthyIdx s.block.header.nextBlocks s.level = some id)
    (hmiss : (db.getNextBlock ix s.block s.level.toNat (some revOpt)).1 = none ∨
      ∃ nb, (db.getNextBlock ix s.block s.level.toNat (some revOpt)).1 = some nb ∧
        nb.data = []) :
    stepSearch db ix item s =
      (StepRes.next ⟨s.block, s.level - 1, false⟩ Ev.stop,
       (db.getNextBlock ix s.block s.level.toNat (some revOpt)).2) := by
  have h0 : ¬ s.level < 0 := by
    have := (truthyIdx_eq_some htr).1
    omega
  rcases hmiss with hn | ⟨nb, hnb, hdata⟩
  · have hpair : db.getNextBlock ix s.block s.level.toNat (some revOpt) =
        (none, (db.getNextBlock ix s.block s.level.toNat (some revOpt)).2) := by
      rw [← hn]
    exact stepSearch_stop_missing db ix item s h0 htr hfk hpair
  · have hpair : db.getNextBlock ix s.block s.level.toNat (some revOpt) =
        (some nb, (db.getNextBlock ix s.block s.level.toNat (some revOpt)).2) := by
      rw [← hnb]
    have hhead : nb.data.head? = none := by
      rw [hdata]
      rfl
    exact stepSearch_stop_empty db ix item s h0 htr hfk hpair hhead

/-- Witness for C9: a block whose level-0 pointer names the unstored id `Z`;
the step breaks at level 0 instead of advancing. -/
theorem C9_missing_next_breaks_witness :
    dangState.block.nextBlocksFirstKey = none ∧
      truthyIdx dangState.block.header.nextBlocks dangState.level = some "Z" ∧
      (ascDb.getNextBlock ascIx dangState.block dangState.level.toNat (some revOpt)).1 =
        none ∧
      stepSearch ascDb ascIx (7 : Int) dangState =
        (StepRes.next ⟨dangState.block, dangState.level - 1, false⟩ Ev.stop,
         (ascDb.getNextBlock ascIx dangState.block dangState.level.toNat
           (some revOpt)).2) :=
  ⟨rfl, rfl, rfl,
    C9_missing_next_breaks ascDb ascIx (7 : Int) dangState "Z" rfl rfl (Or.inl rfl)⟩

/-- **C10**: `getTipBlock` returns an absent result with no block-store fetch
(the trace is exactly the one tip-store call) whenever the tip record is absent
or carries an empty (falsy) block id, so such a tip is an empty chain rather
than a dangling reference. -/
theorem C10_empty_tip {X : Type} (db : ArchiveDatabase X) (ix : ArchiveIndex X)
    (v : String) (o : Option ArchiveGetBlockOptions)
    (h : lookupTip ix.tipDatabase db.dbName ix.name v = none ∨
      ∃ t, lookupTip ix.tipDatabase db.dbName ix.name v = some t ∧ t.blockId = "") :
    db.getTipBlock ix v o = (none, [StoreCall.getTip db.dbName ix.name v {}]) := by
  unfold ArchiveDatabase.getTipBlock
  rcases h with hn | ⟨t, ht, hb⟩
  · rw [hn]
  · rw [ht]
    dsimp only
    rw [if_pos hb]

/-- Witness for C10: no tip record exists for index value `nope`, and
`getTipBlock` returns `none` after the single tip-store call. -/
theorem C10_empty_tip_witness :
    lookupTip ascIx.tipDatabase ascDb.dbName ascIx.name "nope" = none ∧
      ascDb.getTipBlock ascIx "nope" none =
        (none, [StoreCall.getTip ascDb.dbName ascIx.name "nope" {}]) :=
  ⟨rfl, C10_empty_tip ascDb ascIx "nope" none (Or.inl rfl)⟩

/-! ## Claim C4 -/

theorem ascSorter_isCmp : IsCmp ascSorter := by
  refine ⟨?_, ?_, ?_, ?_⟩
  · intro x
    simp [ascSorter]
  · intro x y h
    simp only [ascSorter] at *
    omega
  · intro x y
    simp only [ascSorter]
    omega
  · intro x y z h1 h2
    simp only [ascSorter] at *
    omega

theorem descSorter_isCmp : IsCmp descSorter := by
  refine ⟨?_, ?_, ?_, ?_⟩
  · intro x
    simp [descSorter]
  · intro x y h
    simp only [descSorter] at *
    omega
  · intro x y
    simp only [descSorter]
    omega
  · intro x y z h1 h2
    simp only [descSorter] at *
    omega

/-- **C4**: when the configuration does not declare storage pre-sorted, every
block returned by `getTipBlock` or `getNextBlock` has its items ascending under
the index comparator (for every stored ordering, since the stored list is
arbitrary); when `strictOrdering` is set, the items are returned exactly in
stored order, with no re-sorting.  The ascending parts assume the comparator is
total, as the spec requires of the externally supplied order. -/
theorem C4_normalization {X : Type} :
    (∀ (db : ArchiveDatabase X) (ix : ArchiveIndex X) (v : String)
        (o : Option ArchiveGetBlockOptions) (b : ArchiveIndexBlock X),
      strictOrd db = false →
      (∀ x y : X, ix.sorter x y ≤ 0 ∨ ix.sorter y x ≤ 0) →
      (db.getTipBlock ix v o).1 = some b →
      List.Chain' (fun a c => ix.sorter a c ≤ 0) b.data) ∧
    (∀ (db : ArchiveDatabase X) (ix : ArchiveIndex X) (blk : ArchiveIndexBlock X)
        (height : Nat) (o : Option ArchiveGetBlockOptions) (b : ArchiveIndexBlock X),
      strictOrd db = false →
      (∀ x y : X, ix.sorter x y ≤ 0 ∨ ix.sorter y x ≤ 0) →
      (db.getNextBlock ix blk height o).1 = some b →
      List.Chain' (fun a c => ix.sorter a c ≤ 0) b.data) ∧
    (∀ (db : ArchiveDatabase X) (ix : ArchiveIndex X) (v : String)
        (o : Option ArchiveGetBlockOptions) (t : ArchiveTipRecord) (sb : ArchiveBlock X),
      strictOrd db = true →
      lookupTip ix.tipDatabase db.dbName ix.name v = some t →
      t.blockId ≠ "" →
      lookupBlock ix.blockDatabase t.blockId = some sb →
      (db.getTipBlock ix v o).1 =
        some { header := sb.header, data := sb.data, indexValue := v }) ∧
    (∀ (db : ArchiveDatabase X) (ix : ArchiveIndex X) (blk : ArchiveIndexBlock X)
        (height : Nat) (o : Option ArchiveGetBlockOptions) (id : String)
        (sb : ArchiveBlock X),
      strictOrd db = true →
      blk.header.nextBlocks.get? height = some id →
      lookupBlock ix.blockDatabase id = some sb →
      (db.getNextBlock ix blk height o).1 =
        some { header := sb.header, data := sb.data, indexValue := blk.indexValue }) := by
  refine ⟨?_, ?_, ?_, ?_⟩
  · intro db ix v o b hs htot hb
    obtain ⟨t, sb, _, _, _, hbeq⟩ := getTipBlock_eq_some hb
    rw [hbeq]
    simp only [normBlock, hs, if_false]
    exact chain'_sortByCmp ix.sorter htot sb.data
  · intro db ix blk height o b hs htot hb
    obtain ⟨id, sb, _, _, hbeq⟩ := getNextBlock_eq_some hb
    rw [hbeq]
    simp only [normBlock, hs, if_false]
    exact chain'_sortByCmp ix.sorter htot sb.data
  · intro db ix v o t sb hs ht hne hsb
    rw [getTipBlock_eq_of db ix v o ht hne hsb]
    simp [normBlock, hs]
  · intro db ix blk height o id sb hs hid hsb
    rw [getNextBlock_eq_of db ix blk height o hid hsb]
    simp [normBlock, hs]

/-- Witness for C4: the stored block `U` holds the unsorted items `[3, 1, 2]`;
without `strictOrdering` the navigator returns them sorted ascending, with
`strictOrdering` it returns the stored order unchanged, from both entry
points. -/
theorem C4_normalization_witness :
    strictOrd nsDb = false ∧ strictOrd strictDb = true ∧
      (nsDb.getTipBlock strictIx "v" none).1 =
        some { header := hdrU, data := [1, 2, 3], indexValue := "v" } ∧
      List.Chain' (fun a c => strictIx.sorter a c ≤ 0) ([1, 2, 3] : List Int) ∧
      (nsDb.getNextBlock strictIx u2IndexBlock 0 none).1 =
        some { header := hdrU, data := [1, 2, 3], indexValue := "v" } ∧
      List.Chain' (fun a c => strictIx.sorter a c ≤ 0)
        (({ header := hdrU, data := [1, 2, 3], indexValue := "v" } :
          ArchiveIndexBlock Int).data) ∧
      (strictDb.getTipBlock strictIx "v" none).1 =
        some { header := hdrU, data := [3, 1, 2], indexValue := "v" } ∧
      (strictDb.getNextBlock strictIx u2IndexBlock 0 none).1 =
        some { header := hdrU, data := [3, 1, 2], indexValue := "v" } := by
  have htot : ∀ x y : Int, strictIx.sorter x y ≤ 0 ∨ strictIx.sorter y x ≤ 0 :=
    ascSorter_isCmp.2.2.1
  refine ⟨rfl, rfl, rfl, ?_, rfl, ?_, ?_, ?_⟩
  · have := (C4_normalization (X := Int)).1 nsDb strictIx "v" none
      { header := hdrU, data := [1, 2, 3], indexValue := "v" } rfl htot rfl
    simpa using this
  · exact (C4_normalization (X := Int)).2.1 nsDb strictIx u2IndexBlock 0 none
      { header := hdrU, data := [1, 2, 3], indexValue := "v" } rfl htot rfl
  · exact (C4_normalization (X := Int)).2.2.1 strictDb strictIx "v" none
      { id := "t", db := "adb", key := "k", value := "v", blockId := "U" } blkU rfl rfl
      (by decide) rfl
  · exact (C4_normalization (X := Int)).2.2.2 strictDb strictIx u2IndexBlock 0 none
      "U" blkU rfl rfl rfl

/-! ## General inversion of one search step (no first-key cache) -/

theorem normBlock_fk {X : Type} (cmp : X → X → Int) (st : Bool) (v : String)
    (b : ArchiveBlock X) : (normBlock cmp st v b).nextBlocksFirstKey = none := rfl

theorem normBlock_mem {X : Type} (cmp : X → X → Int) (st : Bool) (v : String)
    (b : ArchiveBlock X) (x : X) (hx : x ∈ (normBlock cmp st v b).data) : x ∈ b.data := by
  simp only [normBlock] at hx
  cases st
  · simp only [Bool.false_eq_true, if_false] at hx
    exact (mem_sortByCmp cmp x b.data).mp hx
  · simpa using hx

theorem normBlock_mem_rev {X : Type} (cmp : X → X → Int) (st : Bool) (v : String)
    (b : ArchiveBlock X) (x : X) (hx : x ∈ b.data) : x ∈ (normBlock cmp st v b).data := by
  simp only [normBlock]
  cases st
  · simp only [Bool.false_eq_true, if_false]
    exact (mem_sortByCmp cmp x b.data).mpr hx
  · simpa using hx

/-- Exhaustive description of one traversal step from a state whose block
carries no first-key cache (the only states reachable from the public entry
points).  Note the absence of the `fail` outcome. -/
theorem stepSearch_cases {X : Type} (db : ArchiveDatabase X) (ix : ArchiveIndex X)
    (item : X) (s : SearchState X) (hfk : s.block.nextBlocksFirstKey = none) :
    (s.level < 0 ∧ (stepSearch db ix item s).1 = StepRes.done s.block) ∨
    (¬ s.level < 0 ∧ truthyIdx s.block.header.nextBlocks s.level = none ∧
      (stepSearch db ix item s).1 =
        StepRes.next ⟨s.block, s.level - 1, false⟩ Ev.levelEmpty) ∨
    (∃ id, ¬ s.level < 0 ∧ truthyIdx s.block.header.nextBlocks s.level = some id ∧
      ((db.getNextBlock ix s.block s.level.toNat (some revOpt)).1 = none ∨
        (∃ nb, (db.getNextBlock ix s.block s.level.toNat (some revOpt)).1 = some nb ∧
          nb.data.head? = none) ∨
        (∃ nb x, (db.getNextBlock ix s.block s.level.toNat (some revOpt)).1 = some nb ∧
          nb.data.head? = some x ∧ 0 ≤ ix.sorter x item)) ∧
      (stepSearch db ix item s).1 = StepRes.next ⟨s.block, s.level - 1, false⟩ Ev.stop) ∨
    (∃ id nb x, ¬ s.level < 0 ∧ truthyIdx s.block.header.nextBlocks s.level = some id ∧
      (db.getNextBlock ix s.block s.level.toNat (some revOpt)).1 = some nb ∧
      nb.data.head? = some x ∧ ix.sorter x item < 0 ∧ s.ascending = true ∧
      s.level < (s.block.header.nextBlocks.length : Int) - 1 ∧
      (stepSearch db ix item s).1 =
        StepRes.next ⟨s.block, s.level + 1, s.ascending⟩
          (Ev.raise s.level (s.level + 1))) ∨
    (∃ id nb x, ¬ s.level < 0 ∧ truthyIdx s.block.header.nextBlocks s.level = some id ∧
      (db.getNextBlock ix s.block s.level.toNat (some revOpt)).1 = some nb ∧
      nb.data.head? = some x ∧ ix.sorter x item < 0 ∧
      ¬ (s.ascending = true ∧ s.level < (s.block.header.nextBlocks.length : Int) - 1) ∧
      (stepSearch db ix item s).1 =
        StepRes.next
          ⟨nb, min s.level ((nb.header.nextBlocks.length : Int) - 1), s.ascending⟩
          (Ev.advance id)) := by
  by_cases h0 : s.level < 0
  · left
    exact ⟨h0, by rw [stepSearch_done db ix item s h0]⟩
  · cases htr : truthyIdx s.block.header.nextBlocks s.level with
    | none =>
      right; left
      exact ⟨h0, rfl, by rw [stepSearch_levelEmpty db ix item s h0 htr]⟩
    | some id =>
      rcases hg : db.getNextBlock ix s.block s.level.toNat (some revOpt) with ⟨nbo, cs⟩
      cases nbo with
      | none =>
        right; right; left
        refine ⟨id, h0, rfl, Or.inl rfl, ?_⟩
        rw [stepSearch_stop_missing db ix item s h0 htr hfk hg]
      | some nb =>
        cases hh : nb.data.head? with
        | none =>
          right; right; left
          refine ⟨id, h0, rfl, Or.inr (Or.inl ⟨nb, rfl, hh⟩), ?_⟩
          rw [stepSearch_stop_empty db ix item s h0 htr hfk hg hh]
        | some x =>
          by_cases hge : 0 ≤ ix.sorter x item
          · right; right; left
            refine ⟨id, h0, rfl, Or.inr (Or.inr ⟨nb, x, rfl, hh, hge⟩), ?_⟩
            rw [stepSearch_stop_ge db ix item s h0 htr hfk hg hh hge]
          · by_cases hbc : s.ascending = true ∧
                s.level < (s.block.header.nextBlocks.length : Int) - 1
            · right; right; right; left
              refine ⟨id, nb, x, h0, rfl, rfl, hh, by omega, hbc.1, hbc.2, ?_⟩
              have hb : (s.ascending &&
                  decide (s.level < (s.block.header.nextBlocks.length : Int) - 1)) = true := by
                rw [hbc.1]
                simpa using hbc.2
              rw [stepSearch_raise db ix item s h0 htr hfk hg hh hge hb]
            · right; right; right; right
              refine ⟨id, nb, x, h0, rfl, rfl, hh, by omega, hbc, ?_⟩
              have hb : (s.ascending &&
                  decide (s.level < (s.block.header.nextBlocks.length : Int) - 1)) = false := by
                cases hA : s.ascending
                · simp
                · simp only [Bool.true_and, decide_eq_false_iff_not]
                  intro hc
                  exact hbc ⟨hA, hc⟩
              rw [stepSearch_advance db ix item s h0 htr hfk hg hh hge hb]

/-! ## Claim C5 -/

/-- Run invariant: starting from a cache-free state whose items are all stored,
the search never takes the mid-search `return null` exit, and any block it
returns again has only stored items.  (The `return null` of line 212 is only
reachable through the first-key-cache branch, and the navigator never attaches
a cache to the blocks it returns.) -/
theorem runSearch_stored_inv {X : Type} (db : ArchiveDatabase X) (ix : ArchiveIndex X)
    (item : X) :
    ∀ (fuel : Nat) (s : SearchState X),
      s.block.nextBlocksFirstKey = none →
      (∀ x ∈ s.block.data, StoredItem ix x) →
      (runSearch db ix item fuel s).1 ≠ some none ∧
        ∀ b, (runSearch db ix item fuel s).1 = some (some b) →
          ∀ x ∈ b.data, StoredItem ix x := by
  intro fuel
  induction fuel with
  | zero =>
    intro s hfk hst
    rw [runSearch_zero]
    exact ⟨by simp, by simp⟩
  | succ n ih =>
    intro s hfk hst
    rcases stepSearch_cases db ix item s hfk with
      ⟨h0, hres⟩ | ⟨h0, htr, hres⟩ | ⟨id, h0, htr, hcmp, hres⟩ |
      ⟨id, nb, x, h0, htr, hnb, hh, hlt, hA, hL, hres⟩ |
      ⟨id, nb, x, h0, htr, hnb, hh, hlt, hnbc, hres⟩
    · have hpair : stepSearch db ix item s =
          (StepRes.done s.block, (stepSearch db ix item s).2) := by
        rw [← hres]
      rw [runSearch_succ_done db ix item n s hpair]
      refine ⟨by simp, ?_⟩
      intro b hb x hx
      have hbs : s.block = b := by simpa using hb
      rw [← hbs] at hx
      exact hst x hx
    · have hpair : stepSearch db ix item s =
          (StepRes.next ⟨s.block, s.level - 1, false⟩ Ev.levelEmpty,
           (stepSearch db ix item s).2) := by
        rw [← hres]
      rw [runSearch_succ_next db ix item n s hpair]
      exact ih ⟨s.block, s.level - 1, false⟩ hfk hst
    · have hpair : stepSearch db ix item s =
          (StepRes.next ⟨s.block, s.level - 1, false⟩ Ev.stop,
           (stepSearch db ix item s).2) := by
        rw [← hres]
      rw [runSearch_succ_next db ix item n s hpair]
      exact ih ⟨s.block, s.level - 1, false⟩ hfk hst
    · have hpair : stepSearch db ix item s =
          (StepRes.next ⟨s.block, s.level + 1, s.ascending⟩
            (Ev.raise s.level (s.level + 1)), (stepSearch db ix item s).2) := by
        rw [← hres]
      rw [runSearch_succ_next db ix item n s hpair]
      exact ih ⟨s.block, s.level + 1, s.ascending⟩ hfk hst
    · have hpair : stepSearch db ix item s =
          (StepRes.next
            ⟨nb, min s.level ((nb.header.nextBlocks.length : Int) - 1), s.ascending⟩
            (Ev.advance id), (stepSearch db ix item s).2) := by
        rw [← hres]
      rw [runSearch_succ_next db ix item n s hpair]
      obtain ⟨id2, sb, hid2, hsb, hnbeq⟩ := getNextBlock_eq_some hnb
      refine ih _ (by rw [hnbeq]; rfl) ?_
      intro y hy
      rw [hnbeq] at hy
      have hy2 := normBlock_mem _ _ _ _ y hy
      obtain ⟨k, hk⟩ := lookupBlock_mem hsb
      exact ⟨(k, sb), hk, hy2⟩

theorem sortedEqGo_spec {X : Type} (cmp : X → X → Int) (l : List X) (item : X) :
    ∀ (fuel : Nat) (lo hi : Int),
      sortedEqGo cmp l item fuel lo hi = -1 ∨
      ∃ y, l.get? (sortedEqGo cmp l item fuel lo hi).toNat = some y ∧ cmp y item = 0 := by
  intro fuel
  induction fuel with
  | zero =>
    intro lo hi
    left
    rfl
  | succ n ih =>
    intro lo hi
    have heq : sortedEqGo cmp l item (n + 1) lo hi =
        if hi < lo then -1
        else
          match l.get? ((lo + hi) / 2).toNat with
          | none => -1
          | some x =>
            if cmp x item = 0 then (lo + hi) / 2
            else if 0 < cmp x item then sortedEqGo cmp l item n lo ((lo + hi) / 2 - 1)
            else sortedEqGo cmp l item n ((lo + hi) / 2 + 1) hi := rfl
    rw [heq]
    split
    · left
      rfl
    · cases hx : l.get? ((lo + hi) / 2).toNat with
      | none =>
        left
        rfl
      | some x =>
        dsimp only
        by_cases hc : cmp x item = 0
        · rw [if_pos hc]
          exact Or.inr ⟨x, hx, hc⟩
        · rw [if_neg hc]
          split
          · exact ih lo ((lo + hi) / 2 - 1)
          · exact ih ((lo + hi) / 2 + 1) hi

/-- If no element of the list compares equal to `item`, the equality search
misses (returns a negative index). -/
theorem sortedEq_miss {X : Type} (cmp : X → X → Int) (l : List X) (item : X)
    (h : ∀ y ∈ l, cmp y item ≠ 0) : sortedEq l item cmp < 0 := by
  unfold sortedEq
  rcases sortedEqGo_spec cmp l item (l.length + 1) 0 ((l.length : Int) - 1) with
    he | ⟨y, hy, hc⟩
  · rw [he]
    decide
  · exact absurd hc (h y (List.get?_mem hy))

/-- **C5**: for every chain in which no stored item compares equal to the
queried item under the index comparator (the equality `indexItem` tests),
`indexItem` returns an absent result, while `indexBlockFor` on the same
arguments returns a concrete (non-absent) bounding block whenever the chain is
non-empty (the tip block resolves) and the search terminates within the given
fuel. -/
theorem C5_miss_correctness {X : Type} (db : ArchiveDatabase X) (ix : ArchiveIndex X)
    (v : String) (item : X) (fuel : Nat) (T : ArchiveIndexBlock X)
    (htip : (db.getTipBlock ix v (some revOpt)).1 = some T)
    (hmiss : ∀ p ∈ ix.blockDatabase, ∀ x ∈ p.2.data, ix.sorter x item ≠ 0)
    (hterm : (db.indexBlockFor ix v item fuel).1 ≠ none) :
    (∃ b, (db.indexBlockFor ix v item fuel).1 = some (some b)) ∧
      (db.indexItem ix v item fuel).1 = some none := by
  have hpair : db.getTipBlock ix v (some revOpt) =
      (some T, (db.getTipBlock ix v (some revOpt)).2) := by
    rw [← htip]
  have hibf := indexBlockFor_tip_some db ix v item fuel hpair
  obtain ⟨t, sb, ht, hne, hsb, hTeq⟩ := getTipBlock_eq_some htip
  have hfkT : T.nextBlocksFirstKey = none := by
    rw [hTeq]
    rfl
  have hstT : ∀ x ∈ T.data, StoredItem ix x := by
    intro x hx
    rw [hTeq] at hx
    have hx2 := normBlock_mem _ _ _ _ x hx
    obtain ⟨k, hk⟩ := lookupBlock_mem hsb
    exact ⟨(k, sb), hk, hx2⟩
  have hinv := runSearch_stored_inv db ix item fuel
    ⟨T, (T.header.nextBlocks.length : Int) - 1, true⟩ hfkT hstT
  have h1 : (db.indexBlockFor ix v item fuel).1 =
      (runSearch db ix item fuel
        ⟨T, (T.header.nextBlocks.length : Int) - 1, true⟩).1 := by
    rw [hibf]
  cases hr : (runSearch db ix item fuel
      ⟨T, (T.header.nextBlocks.length : Int) - 1, true⟩).1 with
  | none =>
    rw [h1, hr] at hterm
    exact absurd rfl hterm
  | some ro =>
    cases ro with
    | none => exact absurd hr hinv.1
    | some b =>
      have hbf : (db.indexBlockFor ix v item fuel).1 = some (some b) := by
        rw [h1, hr]
      refine ⟨⟨b, hbf⟩, ?_⟩
      have hstb : ∀ x ∈ b.data, StoredItem ix x := hinv.2 b hr
      have hlt : sortedEq b.data item ix.sorter < 0 := by
        apply sortedEq_miss
        intro y hy
        obtain ⟨p, hp, hyp⟩ := hstb y hy
        exact hmiss p hp y hyp
      have hfull : db.indexBlockFor ix v item fuel =
          (some (some b), (db.indexBlockFor ix v item fuel).2.1,
           (db.indexBlockFor ix v item fuel).2.2) := by
        rw [← hbf]
      unfold ArchiveDatabase.indexItem
      rw [hfull]
      dsimp only
      rw [if_pos hlt]

/-- Witness for C5: querying `25` on the two-block ascending chain — no stored
item equals `25`, `indexBlockFor` returns a concrete block, `indexItem` returns
an absent result. -/
theorem C5_miss_correctness_witness :
    (∀ p ∈ ascIx.blockDatabase, ∀ x ∈ p.2.data, ascIx.sorter x (25 : Int) ≠ 0) ∧
      (∃ b, (ascDb.indexBlockFor ascIx "v" (25 : Int) 10).1 = some (some b)) ∧
      (ascDb.indexItem ascIx "v" (25 : Int) 10).1 = some none := by
  have h := C5_miss_correctness ascDb ascIx "v" (25 : Int) 10
    { header := hdrT, data := [10, 15], indexValue := "v" } rfl (by decide) (by decide)
  exact ⟨by decide, h.1, h.2⟩

/-! ## Claim C2 -/

theorem head?_mem {X : Type} {l : List X} {x : X} (h : l.head? = some x) : x ∈ l := by
  cases l with
  | nil => simp at h
  | cons a rest =>
    simp at h
    simp [h]

/-- When the queried item is strictly below every stored item, every step from
a cache-free state breaks: it is a `done`, or it keeps the block and drops a
level. -/
theorem stepSearch_small {X : Type} (db : ArchiveDatabase X) (ix : ArchiveIndex X)
    (item : X) (s : SearchState X) (hfk : s.block.nextBlocksFirstKey = none)
    (hsmall : ∀ p ∈ ix.blockDatabase, ∀ x ∈ p.2.data, 0 < ix.sorter x item) :
    (s.level < 0 ∧ (stepSearch db ix item s).1 = StepRes.done s.block) ∨
    (¬ s.level < 0 ∧ ∃ e, (e = Ev.stop ∨ e = Ev.levelEmpty) ∧
      (stepSearch db ix item s).1 =
        StepRes.next ⟨s.block, s.level - 1, false⟩ e) := by
  rcases stepSearch_cases db ix item s hfk with
    ⟨h0, hres⟩ | ⟨h0, _, hres⟩ | ⟨id, h0, _, _, hres⟩ |
    ⟨id, nb, x, h0, htr, hnb, hh, hlt, _, _, _⟩ |
    ⟨id, nb, x, h0, htr, hnb, hh, hlt, _, _⟩
  · exact Or.inl ⟨h0, hres⟩
  · exact Or.inr ⟨h0, Ev.levelEmpty, Or.inr rfl, hres⟩
  · exact Or.inr ⟨h0, Ev.stop, Or.inl rfl, hres⟩
  · obtain ⟨id2, sb, hid2, hsb, hnbeq⟩ := getNextBlock_eq_some hnb
    obtain ⟨k, hk⟩ := lookupBlock_mem hsb
    have hx : x ∈ nb.data := head?_mem hh
    rw [hnbeq] at hx
    have hx2 := normBlock_mem _ _ _ _ x hx
    have := hsmall (k, sb) hk x hx2
    omega
  · obtain ⟨id2, sb, hid2, hsb, hnbeq⟩ := getNextBlock_eq_some hnb
    obtain ⟨k, hk⟩ := lookupBlock_mem hsb
    have hx : x ∈ nb.data := head?_mem hh
    rw [hnbeq] at hx
    have hx2 := normBlock_mem _ _ _ _ x hx
    have := hsmall (k, sb) hk x hx2
    omega

/-- Run-level consequence: the search never advances, and with enough fuel it
terminates on its start block. -/
theorem runSearch_small {X : Type} (db : ArchiveDatabase X) (ix : ArchiveIndex X)
    (item : X)
    (hsmall : ∀ p ∈ ix.blockDatabase, ∀ x ∈ p.2.data, 0 < ix.sorter x item) :
    ∀ (fuel : Nat) (s : SearchState X), s.block.nextBlocksFirstKey = none →
      (∀ e ∈ (runSearch db ix item fuel s).2.1, evIsAdvance e = false) ∧
      ((s.level + 1).toNat + 1 ≤ fuel →
        (runSearch db ix item fuel s).1 = some (some s.block)) := by
  intro fuel
  induction fuel with
  | zero =>
    intro s hfk
    rw [runSearch_zero]
    exact ⟨by simp, by intro h; omega⟩
  | succ n ih =>
    intro s hfk
    rcases stepSearch_small db ix item s hfk hsmall with
      ⟨h0, hres⟩ | ⟨h0, e, he, hres⟩
    · have hpair : stepSearch db ix item s =
          (StepRes.done s.block, (stepSearch db ix item s).2) := by
        rw [← hres]
      rw [runSearch_succ_done db ix item n s hpair]
      exact ⟨by simp, fun _ => rfl⟩
    · have hpair : stepSearch db ix item s =
          (StepRes.next ⟨s.block, s.level - 1, false⟩ e,
           (stepSearch db ix item s).2) := by
        rw [← hres]
      rw [runSearch_succ_next db ix item n s hpair]
      obtain ⟨iha, ihb⟩ := ih ⟨s.block, s.level - 1, false⟩ hfk
      constructor
      · intro e2 he2
        rcases List.mem_cons.mp he2 with rfl | hmem
        · rcases he with rfl | rfl <;> rfl
        · exact iha e2 hmem
      · intro hfuel
        refine ihb ?_
        dsimp only
        omega

/-- **C2** (amended): for every non-empty chain and every item strictly smaller
(under the index comparator) than every stored item, `indexBlockFor` returns
the **tip** block of the chain — not the oldest one, as the spec states — and
the traversal loop never advances to a next block.  (The smallness hypothesis
is over every block of the store, which holds exactly the chain's blocks.) -/
theorem C2_smallest_amended {X : Type} (db : ArchiveDatabase X) (ix : ArchiveIndex X)
    (v : String) (item : X) (fuel : Nat) (T : ArchiveIndexBlock X)
    (htip : (db.getTipBlock ix v (some revOpt)).1 = some T)
    (hsmall : ∀ p ∈ ix.blockDatabase, ∀ x ∈ p.2.data, 0 < ix.sorter x item)
    (hfuel : T.header.nextBlocks.length + 1 ≤ fuel) :
    (db.indexBlockFor ix v item fuel).1 = some (some T) ∧
      ∀ e ∈ (db.indexBlockFor ix v item fuel).2.1, evIsAdvance e = false := by
  have hpair : db.getTipBlock ix v (some revOpt) =
      (some T, (db.getTipBlock ix v (some revOpt)).2) := by
    rw [← htip]
  have hibf := indexBlockFor_tip_some db ix v item fuel hpair
  obtain ⟨t, sb, ht, hne, hsb, hTeq⟩ := getTipBlock_eq_some htip
  have hfkT : T.nextBlocksFirstKey = none := by
    rw [hTeq]
    rfl
  obtain ⟨ha, hb⟩ := runSearch_small db ix item hsmall fuel
    ⟨T, (T.header.nextBlocks.length : Int) - 1, true⟩ hfkT
  constructor
  · rw [hibf]
    refine hb ?_
    dsimp only
    omega
  · rw [hibf]
    exact ha

/-- **C2** as stated is false at a concrete input: on the two-block chain of
the spec's scenario 2 (tip `T = [10, 15]` whose level-0 pointer reaches the
oldest block `O = [1, 5, 9]`, ascending comparator), the item `0` is strictly
smaller than every stored item, yet `indexBlockFor` returns the tip block `T`,
which is not the oldest block `O` of the chain. -/
theorem C2_smallest_counterexample :
    (∀ p ∈ ascIx.blockDatabase, ∀ x ∈ p.2.data, 0 < ascIx.sorter x (0 : Int)) ∧
      truthyIdx hdrT.nextBlocks 0 = some "O" ∧
      lookupBlock ascIx.blockDatabase "O" = some blkO ∧
      truthyIdx hdrO.nextBlocks 0 = none ∧
      (ascDb.indexBlockFor ascIx "v" (0 : Int) 10).1 =
        some (some { header := hdrT, data := [10, 15], indexValue := "v" }) ∧
      hdrT.id ≠ hdrO.id := by
  decide

/-- Witness for the amended C2 on the same chain: the result is the tip block
and the trace holds no advance. -/
theorem C2_smallest_amended_witness :
    (ascDb.indexBlockFor ascIx "v" (0 : Int) 10).1 =
        some (some { header := hdrT, data := [10, 15], indexValue := "v" }) ∧
      ∀ e ∈ (ascDb.indexBlockFor ascIx "v" (0 : Int) 10).2.1, evIsAdvance e = false :=
  C2_smallest_amended ascDb ascIx "v" (0 : Int) 10
    { header := hdrT, data := [10, 15], indexValue := "v" } rfl (by decide) (by decide)

/-! ## Claim C3 -/

theorem raiseDisciplineB_cons (prev : Option Ev) (sA sD : Bool) (e : Ev) (rest : List Ev) :
    raiseDisciplineB prev sA sD (e :: rest) =
      (raiseStepOk prev sA sD e &&
        raiseDisciplineB (some e) (sA || evIsAdvance e) (sD || evIsDrop e) rest) := rfl

/-- Invariant-carrying induction for the re-ascent discipline: along any run
from a cache-free state, provided the flags agree with the state (`ascending`
still set means no drop has been emitted; no advance emitted yet means the
cursor is at or above the block's top level; before the first drop the previous
event can only be an advance or a raise), the whole emitted trace satisfies the
discipline. -/
theorem runSearch_raise_discipline {X : Type} (db : ArchiveDatabase X)
    (ix : ArchiveIndex X) (item : X) :
    ∀ (fuel : Nat) (s : SearchState X) (prev : Option Ev) (sA sD : Bool),
      s.block.nextBlocksFirstKey = none →
      (s.ascending = true → sD = false) →
      (s.ascending = true → sA = false →
        (s.block.header.nextBlocks.length : Int) - 1 ≤ s.level) →
      (sD = false → prev = none ∨
        ∃ p, prev = some p ∧ (evIsAdvance p = true ∨ evIsRaise p = true)) →
      (prev = none → sA = false) →
      raiseDisciplineB prev sA sD (runSearch db ix item fuel s).2.1 = true := by
  intro fuel
  induction fuel with
  | zero =>
    intro s prev sA sD _ _ _ _ _
    rw [runSearch_zero]
    rfl
  | succ n ih =>
    intro s prev sA sD hfk i1 i2 i3 i4
    rcases stepSearch_cases db ix item s hfk with
      ⟨h0, hres⟩ | ⟨h0, htr, hres⟩ | ⟨id, h0, htr, hcmp, hres⟩ |
      ⟨id, nb, x, h0, htr, hnb, hh, hlt, hA, hL, hres⟩ |
      ⟨id, nb, x, h0, htr, hnb, hh, hlt, hnbc, hres⟩
    · have hpair : stepSearch db ix item s =
          (StepRes.done s.block, (stepSearch db ix item s).2) := by
        rw [← hres]
      rw [runSearch_succ_done db ix item n s hpair]
      rfl
    · have hpair : stepSearch db ix item s =
          (StepRes.next ⟨s.block, s.level - 1, false⟩ Ev.levelEmpty,
           (stepSearch db ix item s).2) := by
        rw [← hres]
      rw [runSearch_succ_next db ix item n s hpair]
      dsimp only
      rw [raiseDisciplineB_cons, Bool.and_eq_true]
      refine ⟨rfl, ?_⟩
      refine ih ⟨s.block, s.level - 1, false⟩ (some Ev.levelEmpty)
        (sA || evIsAdvance Ev.levelEmpty) (sD || evIsDrop Ev.levelEmpty) hfk ?_ ?_ ?_ ?_
      · intro h
        simp at h
      · intro h
        simp at h
      · intro h
        simp [evIsDrop] at h
      · intro h
        simp at h
    · have hpair : stepSearch db ix item s =
          (StepRes.next ⟨s.block, s.level - 1, false⟩ Ev.stop,
           (stepSearch db ix item s).2) := by
        rw [← hres]
      rw [runSearch_succ_next db ix item n s hpair]
      dsimp only
      rw [raiseDisciplineB_cons, Bool.and_eq_true]
      refine ⟨rfl, ?_⟩
      refine ih ⟨s.block, s.level - 1, false⟩ (some Ev.stop)
        (sA || evIsAdvance Ev.stop) (sD || evIsDrop Ev.stop) hfk ?_ ?_ ?_ ?_
      · intro h
        simp at h
      · intro h
        simp at h
      · intro h
        simp [evIsDrop] at h
      · intro h
        simp at h
    · -- raise step
      have hpair : stepSearch db ix item s =
          (StepRes.next ⟨s.block, s.level + 1, s.ascending⟩
            (Ev.raise s.level (s.level + 1)), (stepSearch db ix item s).2) := by
        rw [← hres]
      rw [runSearch_succ_next db ix item n s hpair]
      dsimp only
      rw [raiseDisciplineB_cons, Bool.and_eq_true]
      have hsD : sD = false := i1 hA
      have hsA : sA = true := by
        cases hsa : sA
        · have := i2 hA hsa
          omega
        · rfl
      constructor
      · rcases i3 hsD with hnone | ⟨p, hp, hpak⟩
        · rw [i4 hnone] at hsA
          cases hsA
        · simp only [raiseStepOk, hsD, hsA, hp]
          rcases hpak with hpa | hpr
          · simp [hpa]
          · simp [hpr]
      · refine ih ⟨s.block, s.level + 1, s.ascending⟩
          (some (Ev.raise s.level (s.level + 1)))
          (sA || evIsAdvance (Ev.raise s.level (s.level + 1)))
          (sD || evIsDrop (Ev.raise s.level (s.level + 1))) hfk ?_ ?_ ?_ ?_
        · intro _
          simp [evIsDrop, hsD]
        · intro _ h2
          rw [hsA] at h2
          simp [evIsAdvance] at h2
        · intro _
          exact Or.inr ⟨Ev.raise s.level (s.level + 1), rfl, Or.inr rfl⟩
        · intro h
          simp at h
    · -- advance step
      have hpair : stepSearch db ix item s =
          (StepRes.next
            ⟨nb, min s.level ((nb.header.nextBlocks.length : Int) - 1), s.ascending⟩
            (Ev.advance id), (stepSearch db ix item s).2) := by
        rw [← hres]
      rw [runSearch_succ_next db ix item n s hpair]
      dsimp only
      rw [raiseDisciplineB_cons, Bool.and_eq_true]
      refine ⟨rfl, ?_⟩
      obtain ⟨id2, sb, hid2, hsb, hnbeq⟩ := getNextBlock_eq_some hnb
      refine ih ⟨nb, min s.level ((nb.header.nextBlocks.length : Int) - 1), s.ascending⟩
        (some (Ev.advance id)) (sA || evIsAdvance (Ev.advance id))
        (sD || evIsDrop (Ev.advance id)) (by rw [hnbeq]; rfl) ?_ ?_ ?_ ?_
      · intro h
        simp only [evIsDrop, Bool.or_false]
        exact i1 h
      · intro _ h2
        simp [evIsAdvance] at h2
      · intro _
        exact Or.inr ⟨Ev.advance id, rfl, Or.inl rfl⟩
      · intro h
        simp at h

/-- **C3** (amended): along every `indexBlockFor` traversal, every level raise
happens before any level drop (never after one), raises the cursor by exactly
one, follows at least one advance, and is immediately preceded by an advance
**or by another raise** — raises may chain, one per passing comparison, so the
cursor can climb several levels after a single advance, contrary to the claim's
"only on the comparison step immediately following an advance". -/
theorem C3_reascent_amended {X : Type} (db : ArchiveDatabase X) (ix : ArchiveIndex X)
    (v : String) (item : X) (fuel : Nat) :
    raiseDisciplineB none false false (db.indexBlockFor ix v item fuel).2.1 = true := by
  rcases htip : db.getTipBlock ix v (some revOpt) with ⟨bo, cs⟩
  cases bo with
  | none =>
    rw [indexBlockFor_tip_none db ix v item fuel htip]
    rfl
  | some T =>
    rw [indexBlockFor_tip_some db ix v item fuel htip]
    dsimp only
    obtain ⟨t, sb, ht, hne, hsb, hTeq⟩ := getTipBlock_eq_some (by rw [htip] : (db.getTipBlock ix v (some revOpt)).1 = some T)
    refine runSearch_raise_discipline db ix item fuel
      ⟨T, (T.header.nextBlocks.length : Int) - 1, true⟩ none false false
      (by rw [hTeq]; rfl) (fun _ => rfl) ?_ (fun _ => Or.inl rfl) (fun _ => rfl)
    intro _ _
    dsimp only
    omega

/-- **C3** as stated is false at a concrete input: on a chain whose tip has one
level and whose predecessor `B` has three, searching for `35` produces the
trace `[advance B, raise 0 1, raise 1 2, advance C]` — the second raise follows
a raise, not an advance, and the cursor climbs two levels after the single
advance onto `B`. -/
theorem C3_reascent_counterexample :
    (c3Db.indexBlockFor c3Ix "v" (35 : Int) 10).2.1 =
        [Ev.advance "B", Ev.raise 0 1, Ev.raise 1 2, Ev.advance "C"] ∧
      raisesOnlyAfterAdvanceB none ((c3Db.indexBlockFor c3Ix "v" (35 : Int) 10).2.1) =
        false := by
  decide

/-! ## Claim C1 -/

theorem truthyIdx_nil (i : Int) : truthyIdx ([] : List String) i = none := by
  unfold truthyIdx
  split
  · rfl
  · rfl

theorem sortByCmp_head?_isSome {X : Type} (cmp : X → X → Int) (l : List X)
    (h : l ≠ []) : ∃ y, (sortByCmp cmp l).head? = some y := by
  cases hl : sortByCmp cmp l with
  | nil =>
    cases l with
    | nil => exact absurd rfl h
    | cons a rest => exact absurd hl (sortByCmp_ne_nil cmp a rest)
  | cons a rest => exact ⟨a, rfl⟩

/-- Invariant induction for skip coverage over a well-formed chain
`blk 0 (tip) · blk 1 · … · blk n` that is strictly ascending from the tip in
comparator order: if the searched `item` is stored in `blk jstar` and is not
comparator-equal to the minimum of any non-tip block, then from any state whose
block is the normalization of some `blk k` with `k ≤ jstar` (and `k = jstar`
once the level cursor is exhausted), the search can only return a block
containing `item`. -/
theorem runSearch_chain_cover {X : Type} (db : ArchiveDatabase X) (ix : ArchiveIndex X)
    (v : String) (item : X) (n : Nat) (blk : Nat → ArchiveBlock X) (jstar : Nat)
    (hstrict : strictOrd db = false)
    (hcmp : IsCmp ix.sorter)
    (hlook : ∀ k, k ≤ n → lookupBlock ix.blockDatabase (blk k).header.id = some (blk k))
    (hdata : ∀ k, k ≤ n → (blk k).data ≠ [])
    (hnext0 : ∀ k, k < n →
      truthyIdx (blk k).header.nextBlocks 0 = some ((blk (k + 1)).header.id))
    (hlast : truthyIdx (blk n).header.nextBlocks 0 = none)
    (hptr : ∀ k, k ≤ n → ∀ id ∈ (blk k).header.nextBlocks, id = "" ∨
      ∃ m, k < m ∧ m ≤ n ∧ id = (blk m).header.id)
    (hasc : ∀ m, m ≤ n → ∀ k, k < m →
      ∀ x ∈ (blk k).data, ∀ y ∈ (blk m).data, ix.sorter x y < 0)
    (hjn : jstar ≤ n)
    (hstored : item ∈ (blk jstar).data)
    (hnb : ∀ m, 0 < m → m ≤ n → ∀ y,
      (sortByCmp ix.sorter (blk m).data).head? = some y → ix.sorter y item ≠ 0) :
    ∀ (fuel : Nat) (s : SearchState X) (k : Nat),
      k ≤ n → k ≤ jstar →
      s.block = normBlock ix.sorter (strictOrd db) v (blk k) →
      (s.level < 0 → k = jstar) →
      ∀ b, (runSearch db ix item fuel s).1 = some (some b) → item ∈ b.data := by
  intro fuel
  induction fuel with
  | zero =>
    intro s k _ _ _ _ b hb
    rw [runSearch_zero] at hb
    simp at hb
  | succ fl ih =>
    intro s k hkn hkj hblock hlev b hb
    have hfk : s.block.nextBlocksFirstKey = none := by
      rw [hblock]
      rfl
    have hhdr : s.block.header = (blk k).header := by
      rw [hblock]
      rfl
    rcases stepSearch_cases db ix item s hfk with
      ⟨h0, hres⟩ | ⟨h0, htr, hres⟩ | ⟨id, h0, htr, hcmp3, hres⟩ |
      ⟨id, nb, x, h0, htr, hnb2, hh, hlt, hA, hL, hres⟩ |
      ⟨id, nb, x, h0, htr, hnb2, hh, hlt, hnbc, hres⟩
    · -- done
      have hpair : stepSearch db ix item s =
          (StepRes.done s.block, (stepSearch db ix item s).2) := by
        rw [← hres]
      rw [runSearch_succ_done db ix item fl s hpair] at hb
      have hbs : s.block = b := by simpa using hb
      have hkjs : k = jstar := hlev h0
      rw [← hbs, hblock, hkjs]
      exact normBlock_mem_rev _ _ _ _ item hstored
    · -- level exhausted: drop
      have hpair : stepSearch db ix item s =
          (StepRes.next ⟨s.block, s.level - 1, false⟩ Ev.levelEmpty,
           (stepSearch db ix item s).2) := by
        rw [← hres]
      rw [runSearch_succ_next db ix item fl s hpair] at hb
      refine ih ⟨s.block, s.level - 1, false⟩ k hkn hkj hblock ?_ b hb
      intro hneg
      dsimp only at hneg
      have hl0 : s.level = 0 := by omega
      rw [hhdr, hl0] at htr
      have hkn2 : ¬ k < n := by
        intro hlt2
        rw [hnext0 k hlt2] at htr
        simp at htr
      omega
    · -- comparison break: drop
      have hpair : stepSearch db ix item s =
          (StepRes.next ⟨s.block, s.level - 1, false⟩ Ev.stop,
           (stepSearch db ix item s).2) := by
        rw [← hres]
      rw [runSearch_succ_next db ix item fl s hpair] at hb
      refine ih ⟨s.block, s.level - 1, false⟩ k hkn hkj hblock ?_ b hb
      intro hneg
      dsimp only at hneg
      have hl0 : s.level = 0 := by omega
      -- at level 0 the pointer is the immediate next block; the break pins k
      have hkn2 : k < n := by
        by_contra hge
        have hkeq : k = n := by omega
        rw [hhdr, hl0, hkeq, hlast] at htr
        simp at htr
      have hid : id = (blk (k + 1)).header.id := by
        have h2 := hnext0 k hkn2
        rw [hhdr, hl0] at htr
        rw [htr] at h2
        simpa using h2
      have hget : s.block.header.nextBlocks.get? ((0 : Int)).toNat =
          some ((blk (k + 1)).header.id) := by
        have := (truthyIdx_eq_some (hnext0 k hkn2)).2.1
        rw [hhdr]
        exact this
      have hgeq := getNextBlock_eq_of db ix s.block ((0 : Int)).toNat (some revOpt)
        hget (hlook (k + 1) (by omega))
      have hlvlnat : s.level.toNat = ((0 : Int)).toNat := by
        rw [hl0]
      rw [hlvlnat] at hcmp3
      have hiv : s.block.indexValue = v := by
        rw [hblock]
        rfl
      rw [hiv] at hgeq
      -- the next block is blk (k+1), normalized, with a sorted nonempty data list
      have hnedata : (blk (k + 1)).data ≠ [] := hdata (k + 1) (by omega)
      obtain ⟨y0, hy0⟩ := sortByCmp_head?_isSome ix.sorter (blk (k + 1)).data hnedata
      have hndata : (normBlock ix.sorter (strictOrd db) v (blk (k + 1))).data =
          sortByCmp ix.sorter (blk (k + 1)).data := by
        simp [normBlock, hstrict]
      rcases hcmp3 with hca | ⟨nb2, hcb, hcbh⟩ | ⟨nb2, x2, hcc, hcch, hccge⟩
      · rw [hgeq] at hca
        simp at hca
      · rw [hgeq] at hcb
        simp only [Option.some.injEq] at hcb
        rw [← hcb, hndata, hy0] at hcbh
        simp at hcbh
      · rw [hgeq] at hcc
        simp only [Option.some.injEq] at hcc
        rw [← hcc, hndata, hy0] at hcch
        have hx2 : x2 = y0 := by simpa using hcch.symm
        subst hx2
        -- x2 is the minimum of blk (k+1); break means its min ≥ item
        by_contra hkne
        have hkltj : k < jstar := by omega
        rcases Nat.lt_or_ge (k + 1) jstar with hj2 | hj2
        · -- item lives strictly past blk (k+1): its items are all < item
          have hxmem : x2 ∈ (blk (k + 1)).data :=
            (mem_sortByCmp ix.sorter x2 _).mp (head?_mem hy0)
          have := hasc jstar hjn (k + 1) hj2 x2 hxmem item hstored
          omega
        · -- jstar = k+1: the break compares against item's own block minimum
          have hjeq : jstar = k + 1 := by omega
          have hminle := sortByCmp_head_min ix.sorter hcmp (blk (k + 1)).data x2 hy0
            item (by rw [← hjeq]; exact hstored)
          have hne0 := hnb (k + 1) (by omega) (by omega) x2 hy0
          omega
    · -- raise
      have hpair : stepSearch db ix item s =
          (StepRes.next ⟨s.block, s.level + 1, s.ascending⟩
            (Ev.raise s.level (s.level + 1)), (stepSearch db ix item s).2) := by
        rw [← hres]
      rw [runSearch_succ_next db ix item fl s hpair] at hb
      refine ih ⟨s.block, s.level + 1, s.ascending⟩ k hkn hkj hblock ?_ b hb
      intro hneg
      dsimp only at hneg
      omega
    · -- advance
      have hpair : stepSearch db ix item s =
          (StepRes.next
            ⟨nb, min s.level ((nb.header.nextBlocks.length : Int) - 1), s.ascending⟩
            (Ev.advance id), (stepSearch db ix item s).2) := by
        rw [← hres]
      rw [runSearch_succ_next db ix item fl s hpair] at hb
      -- identify the adopted block as some blk m, k < m ≤ n
      obtain ⟨h0le, hget, hidne⟩ := truthyIdx_eq_some htr
      have hmem : id ∈ s.block.header.nextBlocks := List.get?_mem hget
      rw [hhdr] at hmem
      rcases hptr k hkn id hmem with hbad | ⟨m, hkm, hmn, hidm⟩
      · exact absurd hbad hidne
      obtain ⟨id2, sb, hid2, hsb, hnbeq⟩ := getNextBlock_eq_some hnb2
      have hid2eq : id2 = id := by
        rw [hget] at hid2
        simpa using hid2.symm
      have hsbm : sb = blk m := by
        rw [hid2eq, hidm, hlook m hmn] at hsb
        simpa using hsb.symm
      have hiv : s.block.indexValue = v := by
        rw [hblock]
        rfl
      rw [hsbm, hiv] at hnbeq
      -- the advance cannot jump past item's block
      have hmj : m ≤ jstar := by
        by_contra hgt
        have hjm : jstar < m := by omega
        have hxmem : x ∈ (blk m).data := by
          have hx : x ∈ nb.data := head?_mem hh
          rw [hnbeq] at hx
          exact normBlock_mem _ _ _ _ x hx
        have hlt2 := hasc m hmn jstar hjm item hstored x hxmem
        have := hcmp.2.1 item x hlt2
        omega
      refine ih ⟨nb, min s.level ((nb.header.nextBlocks.length : Int) - 1), s.ascending⟩
        m hmn hmj (by rw [hnbeq]) ?_ b hb
      intro hneg
      dsimp only at hneg
      have hlen0 : (nb.header.nextBlocks.length : Int) - 1 < 0 := by omega
      have hlen : nb.header.nextBlocks.length = 0 := by omega
      have hnil : nb.header.nextBlocks = [] := List.length_eq_zero.mp hlen
      have hmn2 : ¬ m < n := by
        intro hlt2
        have h2 := hnext0 m hlt2
        have hhdrm : nb.header = (blk m).header := by
          rw [hnbeq]
          rfl
        rw [← hhdrm, hnil, truthyIdx_nil] at h2
        simp at h2
      omega

/-- **C1** (amended): skip coverage holds for chains that are strictly
ascending from the tip under the index comparator.  For a chain
`blk 0 (tip), blk 1, …, blk n` — pointers resolving, blocks non-empty, each
level-0 pointer naming the immediately next block, every pointer naming a
strictly older block, and every item of a block strictly preceding every item
of each older block — and a stored item `X` that is not comparator-equal to the
first (minimal) item of a non-tip block, `indexBlockFor` can only return a
block whose normalized items include an item equal to `X`.  The original
unrestricted claim is false (see the counterexample): the descent skips past
the block containing `X` when the chain descends from the tip in comparator
order, and stops one block short when `X` equals a non-tip block's minimum. -/
theorem C1_skip_coverage_amended {X : Type} (db : ArchiveDatabase X) (ix : ArchiveIndex X)
    (v : String) (item : X) (fuel : Nat) (n : Nat) (blk : Nat → ArchiveBlock X)
    (jstar : Nat) (t : ArchiveTipRecord)
    (hstrict : strictOrd db = false)
    (hcmp : IsCmp ix.sorter)
    (ht : lookupTip ix.tipDatabase db.dbName ix.name v = some t)
    (htid : t.blockId = (blk 0).header.id)
    (hid0 : (blk 0).header.id ≠ "")
    (hlook : ∀ k, k ≤ n → lookupBlock ix.blockDatabase (blk k).header.id = some (blk k))
    (hdata : ∀ k, k ≤ n → (blk k).data ≠ [])
    (hnext0 : ∀ k, k < n →
      truthyIdx (blk k).header.nextBlocks 0 = some ((blk (k + 1)).header.id))
    (hlast : truthyIdx (blk n).header.nextBlocks 0 = none)
    (hptr : ∀ k, k ≤ n → ∀ id ∈ (blk k).header.nextBlocks, id = "" ∨
      ∃ m, k < m ∧ m ≤ n ∧ id = (blk m).header.id)
    (hasc : ∀ m, m ≤ n → ∀ k, k < m →
      ∀ x ∈ (blk k).data, ∀ y ∈ (blk m).data, ix.sorter x y < 0)
    (hjn : jstar ≤ n)
    (hstored : item ∈ (blk jstar).data)
    (hnb : ∀ m, 0 < m → m ≤ n → ∀ y,
      (sortByCmp ix.sorter (blk m).data).head? = some y → ix.sorter y item ≠ 0) :
    ∀ b, (db.indexBlockFor ix v item fuel).1 = some (some b) →
      ∃ y ∈ b.data, ix.sorter y item = 0 := by
  intro b hb
  have hge := getTipBlock_eq_of db ix v (some revOpt) ht
    (by rw [htid]; exact hid0) (by rw [htid]; exact hlook 0 (Nat.zero_le n))
  have hibf := indexBlockFor_tip_some db ix v item fuel hge
  rw [hibf] at hb
  dsimp only at hb
  have hitem : item ∈ b.data := by
    refine runSearch_chain_cover db ix v item n blk jstar hstrict hcmp hlook hdata
      hnext0 hlast hptr hasc hjn hstored hnb fuel
      ⟨normBlock ix.sorter (strictOrd db) v (blk 0),
       ((normBlock ix.sorter (strictOrd db) v (blk 0)).header.nextBlocks.length : Int) - 1,
       true⟩ 0 (Nat.zero_le n) (Nat.zero_le jstar) rfl ?_ b hb
    intro hneg
    dsimp only at hneg
    have hlen0 : ((blk 0).header.nextBlocks.length : Int) - 1 < 0 := by
      simpa [normBlock] using hneg
    have hnil : (blk 0).header.nextBlocks = [] := List.length_eq_zero.mp (by omega)
    have hn0 : ¬ 0 < n := by
      intro h
      have h2 := hnext0 0 h
      rw [hnil, truthyIdx_nil] at h2
      simp at h2
    omega
  exact ⟨item, hitem, hcmp.1 item⟩

/-- **C1** as stated is false at a concrete input: on the spec's own scenario-2
chain — tip `T = [10, 15]` pointing to the older block `O = [1, 5, 9]`,
ascending comparator — the item `10` is stored in the tip block, yet
`indexBlockFor` with that very item advances past the tip and returns block
`O`, whose normalized items contain nothing comparator-equal to `10`: the skip
descent does skip past the block that contains the item. -/
theorem C1_skip_coverage_counterexample :
    (lookupTip ascIx.tipDatabase ascDb.dbName ascIx.name "v" = some tipTV ∧
      tipTV.blockId = "T" ∧ lookupBlock ascIx.blockDatabase "T" = some blkT ∧
      (10 : Int) ∈ blkT.data) ∧
    ¬ (∀ b, (ascDb.indexBlockFor ascIx "v" (10 : Int) 10).1 = some (some b) →
        ∃ y ∈ b.data, ascIx.sorter y 10 = 0) := by
  constructor
  · exact ⟨rfl, rfl, rfl, by decide⟩
  · intro h
    have h2 := h { header := hdrO, data := [1, 5, 9], indexValue := "v" } (by decide)
    revert h2
    decide

/-- The well-formed descending-comparator chain for the amended C1:
`c1blk 0 = T [10, 15]` (tip), `c1blk 1 = O [1, 5, 9]`. -/
def c1blk : Nat → ArchiveBlock Int := fun k => if k = 0 then blkT else blkO

/-- Witness for the amended C1: under the descending comparator the chain
`T → O` ascends from the tip, the stored item `5` (in the older block `O`,
not a block minimum) is found: the search returns `O`, whose normalized items
`[9, 5, 1]` contain an item comparator-equal to `5`. -/
theorem C1_skip_coverage_amended_witness :
    (descDb.indexBlockFor descIx "v" (5 : Int) 10).1 =
        some (some { header := hdrO, data := [9, 5, 1], indexValue := "v" }) ∧
      ∃ y ∈ ([9, 5, 1] : List Int), descIx.sorter y 5 = 0 := by
  refine ⟨by decide, ?_⟩
  refine C1_skip_coverage_amended descDb descIx "v" (5 : Int) 10 1 c1blk 1 tipTV
    rfl descSorter_isCmp rfl rfl (by decide) (by decide) (by decide) (by decide)
    (by decide) ?hptr (by decide) (by omega) (by decide) ?hnb
    { header := hdrO, data := [9, 5, 1], indexValue := "v" } (by decide)
  case hptr =>
    intro k hk id hid
    interval_cases k
    · have hido : id = "O" := by
        simpa [c1blk, blkT, hdrT] using hid
      exact Or.inr ⟨1, by omega, by omega, by rw [hido]; rfl⟩
    · exact absurd hid (by simp [c1blk, blkO, hdrO])
  case hnb =>
    intro m h1 h2 y hy
    interval_cases m
    have h9 : (sortByCmp descIx.sorter (c1blk 1).data).head? = some 9 := rfl
    rw [h9] at hy
    injection hy with hv
    rw [← hv]
    decide
